import Mathlib

/-!
Shallow embedding of the stac-rs arena tree store (`src/stac/mod.rs`) and the
layout engine (`src/layout.rs`).

The repository parts that the store and the layout engine consume but whose
sources are not available (`href.rs`, `link.rs`, the document structs, and
`stac/walk.rs`) are modelled from the specification; every such definition is
marked `Modelled from the spec:` in its doc comment.  Everything else is a
direct transcription of the Rust source.

Rust panics (the `connect` consistency check, and the `expect` calls that fire
only on broken internal invariants) are modelled by an outer `Option`: `none`
means the Rust program would panic.  Nontermination of the (fueled) walk is
modelled by the `Error.outOfFuel` constructor, which does not correspond to a
repository error.
-/

/- ---------------------------------------------------------------------------
Href algebra.  `href.rs` is not under `src/`; all of this section is modelled
from the spec, §4.4 ("Href Algebra") and §3 ("Href").
--------------------------------------------------------------------------- -/

namespace Href

/-- Modelled from the spec: low-level `/`-splitting of a location string
(the spec's "path segments"). -/
def splitCharsAux : List Char → List Char → List (List Char)
  | [], acc => [acc.reverse]
  | c :: cs, acc =>
    if c = '/' then acc.reverse :: splitCharsAux cs []
    else splitCharsAux cs (c :: acc)

/-- Modelled from the spec: the `/`-separated segments of an href. -/
def segs (s : String) : List String :=
  (splitCharsAux s.data []).map fun l => ⟨l⟩

/-- Modelled from the spec: rebuild an href from segments. -/
def joinSegs : List String → String
  | [] => ""
  | [x] => x
  | x :: xs => x ++ "/" ++ joinSegs xs

/-- Modelled from the spec: the segments of the containing directory of an
href (the href with its final path segment removed). -/
def dirSegs (s : String) : List String := (segs s).dropLast

/-- Modelled from the spec: `directory(href)` — the href with its final path
segment removed (the layout engine appends its own `/` separator after it). -/
def directory (s : String) : String := joinSegs (dirSegs s)

/-- Modelled from the spec: `file_name(href)` — the final path segment. -/
def fileName (s : String) : String := (segs s).getLastD ""

/-- Modelled from the spec: `ensure_ends_in_slash` — normalizes a directory
href to end with a separator, idempotently. -/
def ensureEndsInSlash (s : String) : String :=
  if s.data.getLast? = some '/' then s else s ++ "/"

/-- Modelled from the spec: does the character list contain `"://"` (a URL
scheme separator), marking the href as absolute? -/
def hasScheme : List Char → Bool
  | ':' :: '/' :: '/' :: _ => true
  | _ :: cs => hasScheme cs
  | [] => false

/-- Modelled from the spec: an href is absolute when it is a full URL or an
absolute path. -/
def isAbsolute (s : String) : Bool :=
  (match s.data with | '/' :: _ => true | _ => false) || hasScheme s.data

/-- Modelled from the spec: collapse `.` and `..` segments (the accumulator
holds already-kept segments in reverse order). -/
def collapse : List String → List String → List String
  | [], acc => acc.reverse
  | s :: rest, acc =>
    if s = "." then collapse rest acc
    else if s = ".." then
      match acc with
      | [] => collapse rest [".."]
      | _ :: t => collapse rest t
    else collapse rest (s :: acc)

/-- Modelled from the spec: `join(base, reference)` — if the reference is
absolute it is returned unchanged; otherwise it is resolved against the base's
directory, collapsing `.`/`..` segments. -/
def join (base ref : String) : String :=
  if isAbsolute ref then ref
  else joinSegs (collapse (dirSegs base ++ segs ref) [])

/-- Modelled from the spec: strip the longest common leading run of segments
from two segment lists. -/
def stripCommon : List String → List String → List String × List String
  | a :: as, b :: bs =>
    if a = b then stripCommon as bs else (a :: as, b :: bs)
  | as, bs => (as, bs)

/-- Modelled from the spec: `make_relative(from, to)` — the shortest relative
reference expressing `to` against `from`'s directory, with `..` segments to
walk up and a `./` convention when `to` lies under `from`'s directory. -/
def makeRelative (src dst : String) : String :=
  let p := stripCommon (dirSegs src) (segs dst)
  match p.1 with
  | [] => "./" ++ joinSegs p.2
  | up => joinSegs (up.map (fun _ => "..") ++ p.2)

/-- Modelled from the spec: is `a` a leading run of `b` (segment-wise)? -/
def segsLe : List String → List String → Bool
  | [], _ => true
  | _ :: _, [] => false
  | a :: as, b :: bs => a = b && segsLe as bs

/-- Modelled from the spec: the segments of a configured root directory href
(which the layout constructor guarantees ends in a separator). -/
def rootDirSegs (s : String) : List String :=
  if s.data.getLast? = some '/' then (segs s).dropLast else segs s

end Href

/- ---------------------------------------------------------------------------
Error kinds (`error.rs` is not under `src/`; constructors follow spec §7 and
the uses in `stac/mod.rs` and `layout.rs`).
--------------------------------------------------------------------------- -/

/-- Error kinds of the store and the layout engine (spec §7). `readFailed`
stands for the opaque reader/transport failures; `rebaseFailed` is the failure
of `Href::rebase` on a non-nested href (modelled from the spec, §4.4);
`outOfFuel` models nontermination of the fueled walk, not a repository
error. -/
inductive Error
  | cannotRemoveRoot
  | unresolvableNode
  | missingHref
  | readFailed
  | rebaseFailed
  | outOfFuel
deriving Repr, DecidableEq

/-- Modelled from the spec: `rebase(href, old_root, new_root)` — requires
`href` to be nested under `old_root`'s directory; replaces that prefix with
the new configured root, preserving the remainder unchanged. -/
def Href.rebase (href oldRoot newRoot : String) : Except Error String :=
  let old := Href.dirSegs oldRoot
  if Href.segsLe old (Href.segs href) then
    .ok (Href.joinSegs (Href.rootDirSegs newRoot ++ (Href.segs href).drop old.length))
  else
    .error .rebaseFailed

/- ---------------------------------------------------------------------------
Link model.  `link.rs` is not under `src/`; modelled from the spec, §3
("Link") and the constructors used by `layout.rs` and `stac/mod.rs`.
--------------------------------------------------------------------------- -/

/-- Modelled from the spec: a typed reference {href, relation, optional
title}. -/
structure Link where
  href : String
  rel : String
  title : Option String := none
deriving Repr, DecidableEq

namespace Link

def isRoot (l : Link) : Bool := l.rel = "root"
def isParent (l : Link) : Bool := l.rel = "parent"
def isChild (l : Link) : Bool := l.rel = "child"
def isItem (l : Link) : Bool := l.rel = "item"

/-- Modelled from the spec: "structural" = relation ∈ {root, parent, child,
item}. -/
def isStructural (l : Link) : Bool :=
  l.isRoot || l.isParent || l.isChild || l.isItem

def root (h : String) : Link := ⟨h, "root", none⟩
def parent (h : String) : Link := ⟨h, "parent", none⟩
def child (h : String) : Link := ⟨h, "child", none⟩
def item (h : String) : Link := ⟨h, "item", none⟩

end Link

/- ---------------------------------------------------------------------------
Document facade.  The Catalog/Collection/Item structs are not under `src/`
(only the `Object` dispatch enum is); modelled from the spec, §3 ("Document")
and §6 ("Document facade"): a tagged union exposing id, title and an ordered
mutable sequence of links.
--------------------------------------------------------------------------- -/

/-- The three document variants of the `Object` enum (`object.rs`). -/
inductive ObjKind
  | catalog
  | collection
  | item
deriving Repr, DecidableEq

/-- Modelled from the spec: the document facade — a tagged union over
Catalog/Collection/Item exposing identifier, optional title and an ordered
sequence of links. -/
structure Object where
  kind : ObjKind
  id : String
  title : Option String := none
  links : List Link := []
deriving Repr, DecidableEq

namespace Object

/-- Modelled from the spec: the first link with relation `root`, if any. -/
def rootLink (o : Object) : Option Link := o.links.find? (·.isRoot)

/-- Modelled from the spec: the first link with relation `parent`, if any. -/
def parentLink (o : Object) : Option Link := o.links.find? (·.isParent)

/-- Modelled from the spec: the links with relation `child`, in order. -/
def childLinks (o : Object) : List Link := o.links.filter (·.isChild)

/-- Modelled from the spec: append a link to the document's link sequence. -/
def addLink (o : Object) (l : Link) : Object := { o with links := o.links ++ [l] }

def isItem (o : Object) : Bool := o.kind = ObjKind.item

end Object

/- ---------------------------------------------------------------------------
The arena tree store (`src/stac/mod.rs`), transcribed.
--------------------------------------------------------------------------- -/

/-- A pointer to an object in a `Stac` tree (`Handle(usize)`). -/
abbrev Handle := Nat

/-- `const ROOT_HANDLE: Handle = Handle(0)`. -/
def rootHandle : Handle := 0

/-- A node of the arena (`struct Node` in `stac/mod.rs`).  The `nextHref`
field is modelled from the spec: `layout.rs` calls `stac.next_href` /
`stac.set_next_href` (spec §4.3: the layout "computes and installs" each
node's new location, kept apart from its current location, which `Rebase`
still reads via `stac.href`); the version of `stac/mod.rs` holding that field
is not under `src/`. -/
structure Node where
  object : Option Object := none
  children : List Handle := []
  parent : Option Handle := none
  href : Option String := none
  nextHref : Option String := none
  isFromItemLink : Bool := false
deriving Repr, DecidableEq

/-- The arena (`struct Stac<R: Read>`).  The injected reader is a function
from a location to the document read there (`read(href) -> (Document, href)`
per spec §6, with the returned location the requested one); `none` is a read
failure.  `readLog` is instrumentation only: it records, in order, every
location passed to the injected reader, so that cache-hit claims can be
stated; no operation reads it. -/
structure Stac where
  reader : String → Option Object
  nodes : List Node := []
  freeNodes : List Handle := []
  hrefs : List (String × Handle) := []
  readLog : List String := []

/-- `IndexSet` membership-preserving insert: append if absent (indexmap's
`insert` keeps an already-present value at its old position). -/
def setInsert (l : List Handle) (x : Handle) : List Handle :=
  if x ∈ l then l else l ++ [x]

/-- `IndexSet::remove` = `swap_remove`: replace the removed element by the
last element, then drop the last slot. -/
def swapRemove (l : List Handle) (x : Handle) : List Handle :=
  match l.findIdx? (· = x) with
  | none => l
  | some i =>
    match l.getLast? with
    | none => l
    | some last => (l.set i last).dropLast

/-- `HashMap::insert`: replace any entry with the same key. -/
def hrefsInsert (m : List (String × Handle)) (k : String) (v : Handle) :
    List (String × Handle) :=
  (k, v) :: m.filter (fun e => ¬ e.1 = k)

/-- `HashMap::get`. -/
def hrefsLookup (m : List (String × Handle)) (k : String) : Option Handle :=
  (m.find? (fun e => e.1 = k)).map (·.2)

/-- `HashMap::remove`. -/
def hrefsRemove (m : List (String × Handle)) (k : String) :
    List (String × Handle) :=
  m.filter (fun e => ¬ e.1 = k)

namespace Stac

/-- `fn node(&self, handle) -> &Node` (an out-of-range handle, which Rust
would panic on, yields the default node). -/
def node (s : Stac) (h : Handle) : Node := s.nodes.getD h {}

/-- Replace the node at `h` (the writing half of `node_mut`). -/
def setNode (s : Stac) (h : Handle) (n : Node) : Stac :=
  { s with nodes := s.nodes.set h n }

/-- Apply an update through `node_mut`. -/
def modifyNode (s : Stac) (h : Handle) (f : Node → Node) : Stac :=
  s.setNode h (f (s.node h))

/-- `fn root(&self) -> Handle`. -/
def root (_ : Stac) : Handle := rootHandle

/-- `fn parent(&self, handle) -> Option<Handle>`. -/
def parent (s : Stac) (h : Handle) : Option Handle := (s.node h).parent

/-- `fn children(&self, handle) -> Vec<Handle>`. -/
def children (s : Stac) (h : Handle) : List Handle := (s.node h).children

/-- `fn href(&self, handle) -> Option<&Href>`. -/
def href (s : Stac) (h : Handle) : Option String := (s.node h).href

/-- The node's pending layout location (`fn next_href`; see `Node.nextHref`). -/
def nextHref (s : Stac) (h : Handle) : Option String := (s.node h).nextHref

/-- Install a pending layout location (`fn set_next_href`; see
`Node.nextHref`). -/
def setNextHref (s : Stac) (h : Handle) (x : String) : Stac :=
  s.modifyNode h fun n => { n with nextHref := some x }

/-- `fn set_href(&mut self, handle, href)`: index the new location, then
replace the node's own location. -/
def setHref (s : Stac) (h : Handle) (x : String) : Stac :=
  ({ s with hrefs := hrefsInsert s.hrefs x h }).modifyNode h
    fun n => { n with href := some x }

/-- `fn take(&mut self, handle) -> Option<Object>`. -/
def take (s : Stac) (h : Handle) : Option Object × Stac :=
  ((s.node h).object, s.modifyNode h fun n => { n with object := none })

/-- `fn take_href(&mut self, handle) -> Option<Href>`. -/
def takeHref (s : Stac) (h : Handle) : Option String × Stac :=
  ((s.node h).href, s.modifyNode h fun n => { n with href := none })

/-- `fn add_node(&mut self) -> Handle`: pop the free list, else grow the
arena. -/
def addNode (s : Stac) : Handle × Stac :=
  match s.freeNodes with
  | h :: rest => (h, { s with freeNodes := rest })
  | [] => (s.nodes.length, { s with nodes := s.nodes ++ [{}] })

/-- `fn connect(&mut self, parent, child)`: detach the child from its current
parent (panicking — `none` — when the recorded parent's child set does not
contain it), then set the child's parent and insert it into the new parent's
child set. -/
def connect (s : Stac) (p c : Handle) : Option Stac :=
  let detached : Option Stac :=
    match (s.node c).parent with
    | some old =>
      if c ∈ (s.node old).children then
        some (s.modifyNode old fun n => { n with children := swapRemove n.children c })
      else none
    | none => some s
  match detached with
  | none => none
  | some s1 =>
    let s2 := s1.modifyNode c fun n => { n with parent := some p }
    some (s2.modifyNode p fun n => { n with children := setInsert n.children c })

/-- `fn disconnect(&mut self, parent, child)`: clear the child's parent and
shift-remove it from the parent's child set. -/
def disconnect (s : Stac) (p c : Handle) : Stac :=
  (s.modifyNode c fun n => { n with parent := none }).modifyNode p
    fun n => { n with children := n.children.erase c }

end Stac

/-- The one-level link scan of `fn set_object` (`stac/mod.rs` 594-630), the
loop over the incoming document's links: for every structural link, resolve
its href against the document's own location (absolute if there is none),
find-or-create a node for that location, then connect child/item targets under
the current node (marking item targets) and connect the current node under
parent targets.  `none` is the `connect` panic. -/
def Stac.linkScan (s : Stac) (h : Handle) (hrf : Option String) :
    List Link → Option Stac
  | [] => some s
  | l :: ls =>
    if l.isStructural then
      let otherHref := match hrf with
        | some b => Href.join b l.href
        | none => l.href
      let found : Handle × Stac :=
        match hrefsLookup s.hrefs otherHref with
        | some o => (o, s)
        | none =>
          let p := s.addNode
          (p.1, p.2.setHref p.1 otherHref)
      let other := found.1
      let s1 := found.2
      let connected : Option Stac :=
        if l.isChild || l.isItem then
          let s2 :=
            if l.isItem then
              s1.modifyNode other fun n => { n with isFromItemLink := true }
            else s1
          s2.connect h other
        else if l.isParent then s1.connect other h
        else some s1
      match connected with
      | none => none
      | some s2 => s2.linkScan h hrf ls
    else s.linkScan h hrf ls

/-- `fn set_object(&mut self, handle, object)`: run the link scan, then install
the location (indexing it) or clear it, then install the document.
`Href::join` is modelled as total, so the only failure left is the `connect`
panic (`none`). -/
def Stac.setObject (s : Stac) (h : Handle) (obj : Object) (hrf : Option String) :
    Option Stac :=
  match s.linkScan h hrf obj.links with
  | none => none
  | some s1 =>
    let s2 := match hrf with
      | some x => s1.setHref h x
      | none => s1.modifyNode h fun n => { n with href := none }
    some (s2.modifyNode h fun n => { n with object := some obj })

/-- `fn add(&mut self, object) -> Result<Handle>`: reuse the handle indexed
under the input's location if there is one, else allocate, then `set_object`. -/
def Stac.add (s : Stac) (obj : Object) (hrf : Option String) :
    Option (Handle × Stac) :=
  let picked : Handle × Stac :=
    match hrf.bind (fun x => hrefsLookup s.hrefs x) with
    | some h => (h, s)
    | none => s.addNode
  match picked.2.setObject picked.1 obj hrf with
  | none => none
  | some s2 => some (picked.1, s2)

/-- `fn add_child(&mut self, parent, object) -> Result<Handle>`: `add`, then
`connect(parent, child)`. -/
def Stac.addChild (s : Stac) (p : Handle) (obj : Object) (hrf : Option String) :
    Option (Handle × Stac) :=
  match s.add obj hrf with
  | none => none
  | some (c, s1) =>
    match s1.connect p c with
    | none => none
    | some s2 => some (c, s2)

/-- `fn ensure_resolved(&mut self, handle)`: if the node has no document, take
its location (the location is gone even when the read then fails), pass it to
the injected reader (recording the read in `readLog`), and `set_object` the
result; fail with `UnresolvableNode` when there is no location either. -/
def Stac.ensureResolved (s : Stac) (h : Handle) :
    Option (Except Error Unit × Stac) :=
  if (s.node h).object.isSome then some (.ok (), s)
  else
    match (s.node h).href with
    | none => some (.error .unresolvableNode, s)
    | some x =>
      let s1 :=
        { s.modifyNode h (fun n => { n with href := none }) with
          readLog := s.readLog ++ [x] }
      match s.reader x with
      | none => some (.error .readFailed, s1)
      | some obj =>
        match s1.setObject h obj (some x) with
        | none => none
        | some s2 => some (.ok (), s2)

/-- `fn get(&mut self, handle) -> Result<&Object>`: `ensure_resolved`, then
the node's document (`expect("should be resolved")` is the `none` panic). -/
def Stac.get (s : Stac) (h : Handle) : Option (Except Error Object × Stac) :=
  match s.ensureResolved h with
  | none => none
  | some (.error e, s1) => some (.error e, s1)
  | some (.ok _, s1) =>
    match (s1.node h).object with
    | none => none
    | some o => some (.ok o, s1)

/-- `fn add_link(&mut self, handle, link)`: `ensure_resolved`, then append the
link to the node's document. -/
def Stac.addLink (s : Stac) (h : Handle) (l : Link) :
    Option (Except Error Unit × Stac) :=
  match s.ensureResolved h with
  | none => none
  | some (.error e, s1) => some (.error e, s1)
  | some (.ok _, s1) =>
    match (s1.node h).object with
    | none => none
    | some o =>
      some (.ok (),
        s1.modifyNode h fun n => { n with object := some (o.addLink l) })

/-- `fn remove_structural_links(&mut self, handle)`: `ensure_resolved`, then
retain only the non-structural links of the node's document. -/
def Stac.removeStructuralLinks (s : Stac) (h : Handle) :
    Option (Except Error Unit × Stac) :=
  match s.ensureResolved h with
  | none => none
  | some (.error e, s1) => some (.error e, s1)
  | some (.ok _, s1) =>
    match (s1.node h).object with
    | none => none
    | some o =>
      some (.ok (),
        s1.modifyNode h fun n =>
          { n with object := some { o with links := o.links.filter (fun l => ¬ l.isStructural) } })

/-- `fn remove(&mut self, handle) -> Result<(Option<Object>, Option<Href>)>`
(`stac/mod.rs` 391-411): refuse the root; take and disconnect every child;
take the parent and disconnect from it; take the location and drop it from the
index; push the handle on the free list; take and return the document. -/
def Stac.remove (s : Stac) (h : Handle) :
    Except Error (Option Object × Option String) × Stac :=
  if h = rootHandle then (.error .cannotRemoveRoot, s)
  else
    let cs := (s.node h).children
    let s1 := s.modifyNode h fun n => { n with children := [] }
    let s2 := cs.foldl (fun acc c => acc.disconnect h c) s1
    let s3 :=
      match (s2.node h).parent with
      | some p =>
        (s2.modifyNode h fun n => { n with parent := none }).disconnect p h
      | none => s2
    let taken : Option String × Stac :=
      match (s3.node h).href with
      | some x =>
        (some x,
          { s3.modifyNode h (fun n => { n with href := none }) with
            hrefs := hrefsRemove s3.hrefs x })
      | none => (none, s3)
    let s5 := { taken.2 with freeNodes := h :: taken.2.freeNodes }
    let o := (s5.node h).object
    (.ok (o, taken.1), s5.modifyNode h fun n => { n with object := none })

/-- `fn rooted(object, reader) -> Result<(Stac, Handle)>`: a fresh one-node
arena whose root slot is `set_object`-ed with the given document. -/
def Stac.rooted (rd : String → Option Object) (obj : Object)
    (hrf : Option String) : Option (Stac × Handle) :=
  let s : Stac := { reader := rd, nodes := [{}] }
  match s.setObject rootHandle obj hrf with
  | none => none
  | some s1 => some (s1, rootHandle)

/-- `fn new_with_reader(object, reader)` (`stac/mod.rs` 196-219): when the
initial document carries a root link whose href, joined against the document's
own location if any, differs from that location, read the root location, root
the store there and re-`add` the original document (its location having been
split off); otherwise root the store at the given document directly.  The
constructor's own read of the root location happens before the store exists,
so it is not in `readLog`. -/
def Stac.newWithReader (rd : String → Option Object) (obj : Object)
    (hrf : Option String) : Option (Except Error (Stac × Handle)) :=
  match obj.rootLink with
  | some l =>
    let rootHref := match hrf with
      | some b => Href.join b l.href
      | none => l.href
    if hrf = some rootHref then
      match Stac.rooted rd obj hrf with
      | none => none
      | some (s, h) => some (.ok (s, h))
    else
      match rd rootHref with
      | none => some (.error .readFailed)
      | some rootObj =>
        match Stac.rooted rd rootObj (some rootHref) with
        | none => none
        | some (s, _) =>
          match s.add obj none with
          | none => none
          | some (h, s1) => some (.ok (s1, h))
  | none =>
    match Stac.rooted rd obj hrf with
    | none => none
    | some (s, h) => some (.ok (s, h))

/-- The reader behind `Reader::default()` for stores built from in-memory
documents in this development: no location resolves (the tests behind the
claims never touch the filesystem through it). -/
def noReader : String → Option Object := fun _ => none

/-- `Stac::new(object)`: `new_with_reader(object, Reader::default())`. -/
def Stac.new (obj : Object) (hrf : Option String) :
    Option (Except Error (Stac × Handle)) :=
  Stac.newWithReader noReader obj hrf

/- ---------------------------------------------------------------------------
The layout engine (`src/layout.rs`), transcribed.  The walk it drives is
modelled from the spec (§4.2), `stac/walk.rs` not being under `src/`.
--------------------------------------------------------------------------- -/

/-- Shape of a fallible, possibly-panicking store operation: `none` is a Rust
panic, `some (.error e, s)` a returned error with the mutated store, and
`some (.ok a, s)` success. -/
def LRes (α : Type) : Type := Option (Except Error α × Stac)

/-- Sequence two store operations, short-circuiting on panic and on error
(the `?` operator). -/
def lbind {α β : Type} (m : LRes α) (f : α → Stac → LRes β) : LRes β :=
  match m with
  | none => none
  | some (.error e, s) => some (.error e, s)
  | some (.ok a, s) => f a s

/-- The two built-in `NextHref` strategies of `layout.rs`. -/
inductive Strategy
  | bestPractices
  | rebase
deriving Repr, DecidableEq

/-- Second half of `impl NextHref for BestPractices` (`layout.rs` 244-250):
append the type-specific file name to the directory computed so far. -/
def nextHrefBPFinish (base : String) (s : Stac) (h : Handle) : LRes String :=
  lbind (s.get h) fun o s1 =>
    let base := base ++
      (match o.kind with
       | .item => o.id
       | .catalog => "catalog"
       | .collection => "collection")
    some (.ok (base ++ ".json"), s1)

/-- `impl NextHref for BestPractices` (`layout.rs` 226-252): a non-root node
lives in its own subdirectory (named by its identifier) under its parent's
already-assigned directory; the root lives in the configured root directory;
either way the file name is type-specific. -/
def nextHrefBP (rootStr : String) (s : Stac) (h : Handle) : LRes String :=
  match s.parent h with
  | some p =>
    match s.nextHref p with
    | none => some (.error .missingHref, s)
    | some ph =>
      lbind (s.get h) fun o s1 =>
        nextHrefBPFinish (Href.directory ph ++ "/" ++ o.id ++ "/") s1 h
  | none => nextHrefBPFinish rootStr s h

/-- `impl NextHref for Rebase` (`layout.rs` 254-269): the root keeps its file
name under the new root; any other node has its current location rebased from
the old root's directory onto the new root; a missing location (of the node,
or of the root for the non-root case) is `MissingHref`. -/
def nextHrefRebase (rootStr : String) (s : Stac) (h : Handle) :
    Except Error String × Stac :=
  if h = s.root then
    match s.href h with
    | none => (.error .missingHref, s)
    | some f => (.ok (Href.join rootStr (Href.fileName f)), s)
  else
    match s.href h with
    | none => (.error .missingHref, s)
    | some x =>
      match s.href s.root with
      | none => (.error .missingHref, s)
      | some r =>
        match Href.rebase x r rootStr with
        | .ok y => (.ok y, s)
        | .error e => (.error e, s)

/-- Dispatch of the `NextHref` trait over the two built-in strategies. -/
def stratNextHref : Strategy → String → Stac → Handle → LRes String
  | .bestPractices => nextHrefBP
  | .rebase => fun r s h => some (nextHrefRebase r s h)

/-- `fn create_link` (`layout.rs` 211-223): both endpoints must already carry
a pending location (`MissingHref` otherwise); the link href is the relative
expression of the target from the source, and the title is copied from the
target's document. -/
def createLink (s : Stac) (src dst : Handle) (rel : String) : LRes Link :=
  match s.nextHref src with
  | none => some (.error .missingHref, s)
  | some fh =>
    match s.nextHref dst with
    | none => some (.error .missingHref, s)
    | some th =>
      lbind (s.get dst) fun o s1 =>
        some (.ok { href := Href.makeRelative fh th, rel := rel, title := o.title }, s1)

/-- `fn set_next_href` of `Layout` (`layout.rs` 202-209): compute the
strategy's next location and install it on the node. -/
def layoutSetNextHref (strat : Strategy) (rootStr : String) (s : Stac)
    (h : Handle) : LRes Unit :=
  lbind (stratNextHref strat rootStr s h) fun x s1 =>
    some (.ok (), s1.setNextHref h x)

/-- The per-child step of `fn layout_one`'s loop (`layout.rs` 192-197): strip
the child's structural links, assign its next location, and install a child
link on the visited node. -/
def layoutChild (strat : Strategy) (rootStr : String) (h : Handle) (s : Stac)
    (c : Handle) : LRes Unit :=
  lbind (s.removeStructuralLinks c) fun _ s1 =>
    lbind (layoutSetNextHref strat rootStr s1 c) fun _ s2 =>
      lbind (createLink s2 h c "child") fun l s3 =>
        s3.addLink h l

/-- The children loop of `fn layout_one`, over the snapshot taken by
`stac.children(handle)`. -/
def layoutChildren (strat : Strategy) (rootStr : String) (h : Handle)
    (s : Stac) : List Handle → LRes Unit
  | [] => some (.ok (), s)
  | c :: cs =>
    lbind (layoutChild strat rootStr h s c) fun _ s1 =>
      layoutChildren strat rootStr h s1 cs

/-- `fn layout_one` (`layout.rs` 178-200): at the root, first strip its
structural links and assign its next location; always install a root link
and, when a parent exists, a parent link; then run the children loop on the
snapshot of the node's children. -/
def layoutOne (strat : Strategy) (rootStr : String) (s : Stac) (h : Handle) :
    LRes Unit :=
  let start : LRes Unit :=
    if h = s.root then
      lbind (s.removeStructuralLinks h) fun _ s1 =>
        layoutSetNextHref strat rootStr s1 h
    else some (.ok (), s)
  lbind start fun _ s1 =>
    lbind (createLink s1 h s1.root "root") fun l s2 =>
      lbind (s2.addLink h l) fun _ s3 =>
        let parented : LRes Unit :=
          match s3.parent h with
          | some p =>
            lbind (createLink s3 h p "parent") fun l2 s4 =>
              s4.addLink h l2
          | none => some (.ok (), s3)
        lbind parented fun _ s5 =>
          layoutChildren strat rootStr h s5 (s5.children h)

/-- Modelled from the spec: the borrowing walk (§4.2) driving `Layout::layout`
(`stac/walk.rs` is not under `src/`): preorder — visit a node, then its
children as they stand right after the visit, in stored order — with the
fail-fast pull of `Layout::layout` (`layout.rs` 139-147).  The fuel bounds the
number of visits; running out is `outOfFuel` (nontermination, not a
repository error). -/
def layoutWalk (strat : Strategy) (rootStr : String) :
    Nat → Stac → List Handle → LRes Unit
  | _, s, [] => some (.ok (), s)
  | 0, s, _ :: _ => some (.error .outOfFuel, s)
  | fuel + 1, s, h :: rest =>
    lbind (layoutOne strat rootStr s h) fun _ s1 =>
      layoutWalk strat rootStr fuel s1 (s1.children h ++ rest)

/-- `Layout::layout` (`layout.rs` 139-147) with the root normalization of
`Layout::new` (`layout.rs` 93-103): walk from the store's root, laying out
every visited node. -/
def runLayout (strat : Strategy) (rootRaw : String) (fuel : Nat) (s : Stac) :
    LRes Unit :=
  layoutWalk strat (Href.ensureEndsInSlash rootRaw) fuel s [s.root]

/- ---------------------------------------------------------------------------
Fixtures and observation helpers used by the theorems.
--------------------------------------------------------------------------- -/

/-- Extract the store/handle from a successful constructor result; the
theorems using it assert the success equation separately, so the fallback is
never relied upon. -/
def unwrapNew (r : Option (Except Error (Stac × Handle))) : Stac × Handle :=
  match r with
  | some (.ok p) => p
  | _ => ({ reader := noReader }, 0)

/-- Extract the store/handle from a successful add result (see `unwrapNew`). -/
def unwrapAdd (r : Option (Handle × Stac)) : Stac × Handle :=
  match r with
  | some (h, s) => (s, h)
  | none => ({ reader := noReader }, 0)

/-- Extract the final store from a layout run (see `unwrapNew`). -/
def unwrapRun (r : LRes Unit) : Stac :=
  match r with
  | some (_, s) => s
  | none => { reader := noReader }

/-- The document stored at a handle (a dummy when absent; the theorems using
it assert presence through the link equations themselves). -/
def objAt (s : Stac) (h : Handle) : Object :=
  ((s.node h).object).getD { kind := .catalog, id := "" }

/-- Scenario of spec §8 / `layout.rs` test `layout_best_practices`: a root
Catalog "root" with a child Collection "child-collection" containing a child
Item "an-item". -/
def c2Step0 : Stac × Handle :=
  unwrapNew (Stac.new { kind := .catalog, id := "root" } none)

/-- The collection added under the root (see `c2Step0`). -/
def c2Step1 : Stac × Handle :=
  unwrapAdd (c2Step0.1.addChild c2Step0.2 { kind := .collection, id := "child-collection" } none)

/-- The item added under the collection (see `c2Step0`). -/
def c2Step2 : Stac × Handle :=
  unwrapAdd (c2Step1.1.addChild c2Step1.2 { kind := .item, id := "an-item" } none)

/-- The store after the BestPractices layout under "stac/root" (see
`c2Step0`). -/
def c2Final : Stac := unwrapRun (runLayout .bestPractices "stac/root" 10 c2Step2.1)

/-- Witness for C6: resolving handle 1 (an unresolved location-only node) in a
concrete two-node store whose reader serves that location. -/
def c6Reader : String → Option Object := fun x =>
  if x = "c1.json" then some { kind := .item, id := "c1" } else none

/-- A concrete store for the C6/C3 witnesses: a root catalog with one child
link, whose target is an unresolved placeholder node at location c1.json. -/
def c6Store : Stac × Handle :=
  unwrapNew (Stac.newWithReader c6Reader
    { kind := .catalog, id := "root", links := [Link.child "c1.json"] }
    (some "catalog.json"))

/-- The store after the first (resolving) get of handle 1 in `c6Store`. -/
def c3S1 : Stac :=
  match c6Store.1.get 1 with
  | some (_, s) => s
  | none => { reader := noReader }

/-- The rebase scenario store: a root catalog at old/path/catalog.json with a
child item at old/path/many/sub/dirs/weird-item-name.json. -/
def c5Store : Stac :=
  (unwrapAdd ((unwrapNew (Stac.new { kind := .catalog, id := "root" }
      (some "old/path/catalog.json"))).1.addChild 0
    { kind := .item, id := "an-item" }
    (some "old/path/many/sub/dirs/weird-item-name.json"))).1

/-- The store obtained by connecting the item (handle 2) of the C2 scenario
store to itself. -/
def c9Self : Stac :=
  match c2Step2.1.connect 2 2 with
  | some s => s
  | none => { reader := noReader }

/-- The store obtained by giving the root of the C2 scenario store a parent
(the collection, handle 1). -/
def c9RootChild : Stac :=
  match c2Step2.1.connect 1 c2Step2.1.root with
  | some s => s
  | none => { reader := noReader }

/-- A store whose root is indexed at a.json, used by the C10 witness. -/
def c10Store : Stac :=
  (unwrapNew (Stac.new { kind := .catalog, id := "root" } (some "a.json"))).1

/-- `c10Store` after take_href(0): the node's location is gone but the index
entry survives. -/
def c10Taken : Stac := (c10Store.takeHref 0).2

/-- The re-add of a document at the stale location a.json. -/
def c10Add : Option (Handle × Stac) :=
  c10Taken.add { kind := .catalog, id := "other" } (some "a.json")

/-- A store whose root is indexed at catalog.json (C7 scenario). -/
def c7Store : Stac :=
  (unwrapNew (Stac.new { kind := .catalog, id := "root" } (some "catalog.json"))).1

/-- A re-added document carrying a structural (child) link to an unseen
location. -/
def c7Doc : Object :=
  { kind := .catalog, id := "other", links := [Link.child "c.json"] }

/-- The store after re-adding `c7Doc` at the already-indexed catalog.json. -/
def c7After : Stac := (unwrapAdd (c7Store.add c7Doc (some "catalog.json"))).1

/-- The store after re-adding a link-free document at catalog.json. -/
def c7PlainAfter : Stac :=
  (unwrapAdd (c7Store.add { kind := .catalog, id := "plain" }
    (some "catalog.json"))).1

/-- Reader for the C8 witness: serves only root.json. -/
def c8Reader : String → Option Object := fun x =>
  if x = "root.json" then some { kind := .catalog, id := "the-root" } else none

/-- The C8 witness's initial document: located at child.json with a root link
to root.json. -/
def c8Obj : Object :=
  { kind := .catalog, id := "child", links := [Link.root "root.json"] }

/-- The store/handle created from `c8Obj` (root link resolving elsewhere). -/
def c8Pair : Stac × Handle :=
  unwrapNew (Stac.newWithReader c8Reader c8Obj (some "child.json"))

/-- The store/handle created from a root-link-free document (direct root). -/
def c8Pair2 : Stac × Handle :=
  unwrapNew (Stac.new { kind := .catalog, id := "solo" } (some "s.json"))

/- ---------------------------------------------------------------------------
C1: the structural-link postcondition of layout.
--------------------------------------------------------------------------- -/

/-- Number of root links on a document. -/
def rootLinkCount (o : Object) : Nat := (o.links.filter (·.isRoot)).length

/-- Number of parent links on a document. -/
def parentLinkCount (o : Object) : Nat := (o.links.filter (·.isParent)).length

/-- The hrefs of a document's child links, in order. -/
def childLinkHrefs (o : Object) : List String :=
  (o.links.filter (·.isChild)).map (·.href)

/-- The child links of node n are in one-to-one, order-preserving
correspondence with its current children: the k-th child link's href is the
relative href from n's assigned location to the location assigned to n's k-th
child. -/
def childLinksMatch (s : Stac) (n : Handle) : Prop :=
  childLinkHrefs (objAt s n)
    = (s.children n).map (fun c =>
        Href.makeRelative ((s.nextHref n).getD "") ((s.nextHref c).getD ""))

/-- Reader of the C1 counterexample: c1.json carries a parent link back to
the root's own location, c2.json is plain. -/
def c1Reader : String → Option Object := fun x =>
  if x = "c1.json" then
    some { kind := .catalog, id := "c1", links := [Link.parent "catalog.json"] }
  else if x = "c2.json" then
    some { kind := .catalog, id := "c2" }
  else none

/-- The C1 counterexample store: a root at catalog.json with two unresolved
children discovered from its child links. -/
def c1Store : Stac :=
  (unwrapNew (Stac.newWithReader c1Reader
    { kind := .catalog, id := "root",
      links := [Link.child "c1.json", Link.child "c2.json"] }
    (some "catalog.json"))).1

/-- The C1 counterexample store after a successful BestPractices layout. -/
def c1Final : Stac := unwrapRun (runLayout .bestPractices "stac/root" 10 c1Store)

/-- Rose tree of handles describing the (static) shape of a store's tree. -/
inductive HTree where
  | mk : Handle → List HTree → HTree
deriving Repr

/-- The handle at a tree's root. -/
def HTree.h : HTree → Handle
  | .mk x _ => x

/-- The subtrees of a tree's root. -/
def HTree.kids : HTree → List HTree
  | .mk _ ts => ts

/-- Preorder flattening of a forest. -/
def flattenF : List HTree → List Handle
  | [] => []
  | .mk x ts :: rest => x :: (flattenF ts ++ flattenF rest)

/-- A forest matches a store when every tree node's recorded children are
exactly its subtree roots, in order, and every subtree root's recorded parent
is its tree parent. -/
def MatchesF (s : Stac) : List HTree → Prop
  | [] => True
  | .mk x ts :: rest =>
      (s.node x).children = ts.map HTree.h ∧
      (∀ t ∈ ts, (s.node t.h).parent = some x) ∧
      MatchesF s ts ∧ MatchesF s rest

def stripObj (o : Object) : Object :=
  { o with links := o.links.filter (fun l => ¬ l.isStructural) }

/-- Append several links to a document's link sequence. -/
def Object.addLinks (o : Object) (ls : List Link) : Object :=
  { o with links := o.links ++ ls }

/-- Walk invariant for the layout simulation: the pending forest has distinct
handles avoiding the root slot, every node in it is already resolved, the
store root is resolved with a pending location, the forest matches the arena,
and every pending tree root has a pending location, a document stripped of
structural links, and a pinned parent outside the forest that is resolved
with a pending location. -/
def WalkInv (s : Stac) (F : List HTree) : Prop :=
  (flattenF F).Nodup ∧
  0 ∉ flattenF F ∧
  (∀ m ∈ flattenF F, ((s.node m).object).isSome) ∧
  ((s.node 0).object).isSome ∧ ((s.node 0).nextHref).isSome ∧
  MatchesF s F ∧
  (∀ t ∈ F, ((s.node t.h).nextHref).isSome ∧
    (∃ o, (s.node t.h).object = some o ∧ ∀ l ∈ o.links, l.isStructural = false) ∧
    (∃ p, (s.node t.h).parent = some p ∧ p ∉ flattenF F ∧
      ((s.node p).object).isSome ∧ ((s.node p).nextHref).isSome))

/-- Walk postcondition: nodes outside the forest are untouched, pending
locations of the forest roots are preserved, and every node of the forest
ends with exactly one root link, exactly one parent link, and child links
matching its children. -/
def WalkPost (s s' : Stac) (F : List HTree) : Prop :=
  (∀ m, m ∉ flattenF F → s'.node m = s.node m) ∧
  (∀ t ∈ F, (s'.node t.h).nextHref = (s.node t.h).nextHref) ∧
  (∀ m ∈ flattenF F,
    rootLinkCount (objAt s' m) = 1 ∧
    parentLinkCount (objAt s' m) = 1 ∧
    childLinksMatch s' m)

example : Href.join "c1.json" "./catalog.json" = "catalog.json" := by decide

example : Href.join "the/new/root/" "catalog.json" = "the/new/root/catalog.json" := by decide

example : Href.directory "stac/root/catalog.json" = "stac/root" := by decide

example : Href.fileName "old/path/catalog.json" = "catalog.json" := by decide

example : Href.ensureEndsInSlash "stac/root" = "stac/root/" := by decide

example : Href.makeRelative "stac/root/catalog.json" "stac/root/catalog.json" = "./catalog.json" := by decide

example : Href.makeRelative "stac/root/catalog.json" "stac/root/child-collection/collection.json" = "./child-collection/collection.json" := by decide

example : Href.makeRelative "stac/root/child-collection/collection.json" "stac/root/catalog.json" = "../catalog.json" := by decide

example : Href.makeRelative "stac/root/child-collection/an-item/an-item.json" "stac/root/catalog.json" = "../../catalog.json" := by decide

example : Href.rebase "old/path/many/sub/dirs/weird-item-name.json" "old/path/catalog.json" "the/new/root/"
    = .ok "the/new/root/many/sub/dirs/weird-item-name.json" := rfl

example : swapRemove [1, 2, 3] 1 = [3, 2] := by decide

example : swapRemove [1, 2, 3] 3 = [1, 2] := by decide

/-- C2.  For a store whose root is a Catalog "root" with a child Collection
"child-collection" which in turn has a child Item "an-item", laying out with
the BestPractices strategy under root directory stac/root assigns: root
location stac/root/catalog.json with root-link ./catalog.json and child-link
./child-collection/collection.json; collection location
stac/root/child-collection/collection.json with parent-link ../catalog.json
and child-link ./an-item/an-item.json; item location
stac/root/child-collection/an-item/an-item.json with parent-link
../collection.json and root-link ../../catalog.json. -/
theorem claim_c2_best_practices_scenario :
    Stac.new { kind := .catalog, id := "root" } none = some (.ok (c2Step0.1, c2Step0.2)) ∧
    c2Step0.1.addChild c2Step0.2 { kind := .collection, id := "child-collection" } none
      = some (c2Step1.2, c2Step1.1) ∧
    c2Step1.1.addChild c2Step1.2 { kind := .item, id := "an-item" } none
      = some (c2Step2.2, c2Step2.1) ∧
    c2Step0.2 = 0 ∧ c2Step1.2 = 1 ∧ c2Step2.2 = 2 ∧
    runLayout .bestPractices "stac/root" 10 c2Step2.1 = some (.ok (), c2Final) ∧
    c2Final.nextHref 0 = some "stac/root/catalog.json" ∧
    (objAt c2Final 0).rootLink = some (Link.root "./catalog.json") ∧
    (objAt c2Final 0).parentLink = none ∧
    (objAt c2Final 0).childLinks = [Link.child "./child-collection/collection.json"] ∧
    c2Final.nextHref 1 = some "stac/root/child-collection/collection.json" ∧
    (objAt c2Final 1).parentLink = some (Link.parent "../catalog.json") ∧
    (objAt c2Final 1).childLinks = [Link.child "./an-item/an-item.json"] ∧
    c2Final.nextHref 2 = some "stac/root/child-collection/an-item/an-item.json" ∧
    (objAt c2Final 2).parentLink = some (Link.parent "../collection.json") ∧
    (objAt c2Final 2).rootLink = some (Link.root "../../catalog.json") :=
  ⟨rfl, rfl, rfl, rfl, rfl, rfl, rfl, rfl, rfl, rfl, rfl, rfl, rfl, rfl, rfl, rfl, rfl⟩

/- ---------------------------------------------------------------------------
Basic lemmas about node access and the elementary store mutations.
--------------------------------------------------------------------------- -/

theorem Stac.node_oob (s : Stac) (h : Handle) (hh : s.nodes.length ≤ h) :
    s.node h = {} := by
  simp [Stac.node, List.getD_eq_getElem?_getD, List.getElem?_eq_none hh]

theorem Stac.modifyNode_oob (s : Stac) (h : Handle) (f : Node → Node)
    (hh : s.nodes.length ≤ h) : s.modifyNode h f = s := by
  simp [Stac.modifyNode, Stac.setNode, List.set_eq_of_length_le hh]

theorem Stac.node_modify_ne (s : Stac) (h n : Handle) (f : Node → Node)
    (hne : n ≠ h) : (s.modifyNode h f).node n = s.node n := by
  simp [Stac.modifyNode, Stac.setNode, Stac.node, List.getD_eq_getElem?_getD,
    List.getElem?_set_ne (fun e => hne e.symm)]

theorem Stac.node_modify_self (s : Stac) (h : Handle) (f : Node → Node)
    (hh : h < s.nodes.length) : (s.modifyNode h f).node h = f (s.node h) := by
  simp [Stac.modifyNode, Stac.setNode, Stac.node, List.getD_eq_getElem?_getD,
    List.getElem?_set_eq hh]

theorem Stac.node_modify (s : Stac) (h n : Handle) (f : Node → Node) :
    (s.modifyNode h f).node n
      = if n = h ∧ h < s.nodes.length then f (s.node h) else s.node n := by
  by_cases e : n = h
  · subst e
    by_cases b : n < s.nodes.length
    · simp [b, Stac.node_modify_self s n f b]
    · simp [b, Stac.modifyNode_oob s n f (Nat.le_of_not_lt b)]
  · simp [e, Stac.node_modify_ne s h n f e]

theorem Stac.modify_nodes_length (s : Stac) (h : Handle) (f : Node → Node) :
    (s.modifyNode h f).nodes.length = s.nodes.length := by
  simp [Stac.modifyNode, Stac.setNode]

theorem Stac.modify_reader (s : Stac) (h : Handle) (f : Node → Node) :
    (s.modifyNode h f).reader = s.reader := rfl

theorem Stac.modify_hrefs (s : Stac) (h : Handle) (f : Node → Node) :
    (s.modifyNode h f).hrefs = s.hrefs := rfl

theorem Stac.modify_freeNodes (s : Stac) (h : Handle) (f : Node → Node) :
    (s.modifyNode h f).freeNodes = s.freeNodes := rfl

theorem Stac.modify_readLog (s : Stac) (h : Handle) (f : Node → Node) :
    (s.modifyNode h f).readLog = s.readLog := rfl

theorem hrefsLookup_insert_self (m : List (String × Handle)) (k : String)
    (v : Handle) : hrefsLookup (hrefsInsert m k v) k = some v := by
  simp [hrefsLookup, hrefsInsert]

theorem hrefsLookup_insert_ne (m : List (String × Handle)) (k k' : String)
    (v : Handle) (hne : k' ≠ k) :
    hrefsLookup (hrefsInsert m k v) k' = hrefsLookup m k' := by
  simp only [hrefsLookup, hrefsInsert]
  rw [List.find?_cons_of_neg _ (fun hh => hne ((by simpa using hh : k = k')).symm)]
  induction m with
  | nil => simp
  | cons e rest ih =>
    by_cases ek : e.1 = k
    · rw [List.filter_cons, if_neg (by simp [ek])]
      rw [List.find?_cons_of_neg _ (fun hh => hne ((by simpa [ek] using hh : k = k')).symm)]
      exact ih
    · rw [List.filter_cons, if_pos (by simp [ek])]
      by_cases ek' : e.1 = k'
      · rw [List.find?_cons_of_pos _ (by simpa using ek'),
          List.find?_cons_of_pos _ (by simpa using ek')]
      · rw [List.find?_cons_of_neg _ (by simpa using ek'),
          List.find?_cons_of_neg _ (by simpa using ek')]
        exact ih

theorem hrefsLookup_remove_self (m : List (String × Handle)) (k : String) :
    hrefsLookup (hrefsRemove m k) k = none := by
  induction m with
  | nil => rfl
  | cons e rest ih =>
    by_cases ek : e.1 = k
    · simpa [hrefsRemove, List.filter_cons, ek] using ih
    · simp only [hrefsRemove, List.filter_cons, if_pos (by simp [ek] : decide ¬e.1 = k = true)]
      simpa [hrefsLookup, List.find?_cons, ek] using ih

/- ---------------------------------------------------------------------------
Lemmas about `disconnect` and the child-disconnection fold of `remove`.
--------------------------------------------------------------------------- -/

theorem Stac.node_modify_object (s : Stac) (h x : Handle) (f : Node → Node)
    (hf : ∀ n, (f n).object = n.object) :
    ((s.modifyNode h f).node x).object = (s.node x).object := by
  rw [Stac.node_modify]
  split
  · next hc => rw [hf, hc.1]
  · rfl

theorem Stac.node_modify_parent (s : Stac) (h x : Handle) (f : Node → Node)
    (hf : ∀ n, (f n).parent = n.parent) :
    ((s.modifyNode h f).node x).parent = (s.node x).parent := by
  rw [Stac.node_modify]
  split
  · next hc => rw [hf, hc.1]
  · rfl

theorem Stac.node_modify_children (s : Stac) (h x : Handle) (f : Node → Node)
    (hf : ∀ n, (f n).children = n.children) :
    ((s.modifyNode h f).node x).children = (s.node x).children := by
  rw [Stac.node_modify]
  split
  · next hc => rw [hf, hc.1]
  · rfl

theorem Stac.node_modify_href (s : Stac) (h x : Handle) (f : Node → Node)
    (hf : ∀ n, (f n).href = n.href) :
    ((s.modifyNode h f).node x).href = (s.node x).href := by
  rw [Stac.node_modify]
  split
  · next hc => rw [hf, hc.1]
  · rfl

theorem Stac.node_modify_nextHref (s : Stac) (h x : Handle) (f : Node → Node)
    (hf : ∀ n, (f n).nextHref = n.nextHref) :
    ((s.modifyNode h f).node x).nextHref = (s.node x).nextHref := by
  rw [Stac.node_modify]
  split
  · next hc => rw [hf, hc.1]
  · rfl

theorem Stac.disconnect_node_parent (s : Stac) (p c x : Handle) :
    ((s.disconnect p c).node x).parent = if x = c then none else (s.node x).parent := by
  unfold Stac.disconnect
  rw [Stac.node_modify_parent _ p x
    (fun n => { n with children := n.children.erase c }) (fun n => rfl)]
  rw [Stac.node_modify]
  split
  · next hc => simp [hc.1]
  · next hc =>
    by_cases xc : x = c
    · subst xc
      have hb : s.nodes.length ≤ x := by
        by_contra hl
        exact hc ⟨rfl, Nat.lt_of_not_le hl⟩
      simp [Stac.node_oob _ _ hb]
    · simp [xc]

theorem Stac.disconnect_node_children (s : Stac) (p c x : Handle) :
    ((s.disconnect p c).node x).children
      = if x = p then (s.node x).children.erase c else (s.node x).children := by
  unfold Stac.disconnect
  rw [Stac.node_modify]
  simp only [Stac.modify_nodes_length]
  split
  · next hc =>
    rw [hc.1]
    rw [Stac.node_modify_children _ c p
      (fun n => { n with parent := none }) (fun n => rfl)]
    simp
  · next hc =>
    rw [Stac.node_modify_children _ c x
      (fun n => { n with parent := none }) (fun n => rfl)]
    by_cases xp : x = p
    · subst xp
      have hb : s.nodes.length ≤ x := by
        by_contra hl
        exact hc ⟨rfl, Nat.lt_of_not_le hl⟩
      simp [Stac.node_oob _ _ hb]
    · simp [xp]

theorem Stac.disconnect_node_object (s : Stac) (p c x : Handle) :
    ((s.disconnect p c).node x).object = (s.node x).object := by
  unfold Stac.disconnect
  rw [Stac.node_modify_object _ p x
      (fun n => { n with children := n.children.erase c }) (fun n => rfl),
    Stac.node_modify_object _ c x
      (fun n => { n with parent := none }) (fun n => rfl)]

theorem Stac.disconnect_node_href (s : Stac) (p c x : Handle) :
    ((s.disconnect p c).node x).href = (s.node x).href := by
  unfold Stac.disconnect
  rw [Stac.node_modify_href _ p x
      (fun n => { n with children := n.children.erase c }) (fun n => rfl),
    Stac.node_modify_href _ c x
      (fun n => { n with parent := none }) (fun n => rfl)]

theorem Stac.disconnect_hrefs (s : Stac) (p c : Handle) :
    (s.disconnect p c).hrefs = s.hrefs := rfl

theorem Stac.disconnect_freeNodes (s : Stac) (p c : Handle) :
    (s.disconnect p c).freeNodes = s.freeNodes := rfl

theorem fold_disconnect_node_object (h : Handle) (cs : List Handle) (s : Stac)
    (x : Handle) :
    ((cs.foldl (fun a c => a.disconnect h c) s).node x).object = (s.node x).object := by
  induction cs generalizing s with
  | nil => rfl
  | cons c cs ih => rw [List.foldl_cons, ih, Stac.disconnect_node_object]

theorem fold_disconnect_node_href (h : Handle) (cs : List Handle) (s : Stac)
    (x : Handle) :
    ((cs.foldl (fun a c => a.disconnect h c) s).node x).href = (s.node x).href := by
  induction cs generalizing s with
  | nil => rfl
  | cons c cs ih => rw [List.foldl_cons, ih, Stac.disconnect_node_href]

theorem fold_disconnect_node_parent (h : Handle) (cs : List Handle) (s : Stac)
    (x : Handle) :
    ((cs.foldl (fun a c => a.disconnect h c) s).node x).parent
      = if x ∈ cs then none else (s.node x).parent := by
  induction cs generalizing s with
  | nil => simp
  | cons c cs ih =>
    rw [List.foldl_cons, ih, Stac.disconnect_node_parent]
    by_cases xc : x = c
    · subst xc
      by_cases xcs : x ∈ cs <;> simp [xcs]
    · by_cases xcs : x ∈ cs <;> simp [xc, xcs]

theorem fold_disconnect_node_children_ne (h : Handle) (cs : List Handle)
    (s : Stac) (x : Handle) (hx : x ≠ h) :
    ((cs.foldl (fun a c => a.disconnect h c) s).node x).children
      = (s.node x).children := by
  induction cs generalizing s with
  | nil => rfl
  | cons c cs ih =>
    rw [List.foldl_cons, ih, Stac.disconnect_node_children, if_neg hx]

theorem fold_disconnect_node_children_self (h : Handle) (cs : List Handle)
    (s : Stac) (he : (s.node h).children = []) :
    ((cs.foldl (fun a c => a.disconnect h c) s).node h).children = [] := by
  induction cs generalizing s with
  | nil => exact he
  | cons c cs ih =>
    rw [List.foldl_cons]
    exact ih _ (by rw [Stac.disconnect_node_children]; simp [he])

theorem fold_disconnect_hrefs (h : Handle) (cs : List Handle) (s : Stac) :
    (cs.foldl (fun a c => a.disconnect h c) s).hrefs = s.hrefs := by
  induction cs generalizing s with
  | nil => rfl
  | cons c cs ih => rw [List.foldl_cons, ih, Stac.disconnect_hrefs]

theorem fold_disconnect_freeNodes (h : Handle) (cs : List Handle) (s : Stac) :
    (cs.foldl (fun a c => a.disconnect h c) s).freeNodes = s.freeNodes := by
  induction cs generalizing s with
  | nil => rfl
  | cons c cs ih => rw [List.foldl_cons, ih, Stac.disconnect_freeNodes]

theorem Stac.remove_freeNodes (s : Stac) (h : Handle) (hne : h ≠ rootHandle) :
    (s.remove h).2.freeNodes = h :: s.freeNodes := by
  unfold Stac.remove
  rw [if_neg hne]
  simp only [Stac.modify_freeNodes, fold_disconnect_freeNodes]
  split <;>
    split <;>
      simp [Stac.modify_freeNodes, Stac.disconnect_freeNodes, fold_disconnect_freeNodes]

theorem Stac.node_mk (r : String → Option Object) (ns : List Node)
    (fs : List Handle) (hr : List (String × Handle)) (rl : List String)
    (x : Handle) : (Stac.mk r ns fs hr rl).node x = ns.getD x {} := rfl

theorem Stac.getD_nodes (s : Stac) (x : Handle) :
    s.nodes.getD x {} = s.node x := rfl

theorem Stac.getElem_nodes (s : Stac) (x : Handle) :
    s.nodes[x]?.getD {} = s.node x := by
  rw [← List.getD_eq_getElem?_getD]
  rfl

theorem Stac.node_modify_children_self_nil (s : Stac) (h x : Handle) :
    ((s.modifyNode h fun n => { n with children := ([] : List Handle) }).node x).children
      = if x = h then [] else (s.node x).children := by
  rw [Stac.node_modify]
  split
  · next hc => simp [hc.1]
  · next hc =>
    by_cases xh : x = h
    · subst xh
      have hb : s.nodes.length ≤ x := by
        by_contra hl
        exact hc ⟨rfl, Nat.lt_of_not_le hl⟩
      simp [Stac.node_oob _ _ hb]
    · simp [xh]

theorem Stac.node_modify_parent_self_none (s : Stac) (h x : Handle) :
    ((s.modifyNode h fun n => { n with parent := (none : Option Handle) }).node x).parent
      = if x = h then none else (s.node x).parent := by
  rw [Stac.node_modify]
  split
  · next hc => simp [hc.1]
  · next hc =>
    by_cases xh : x = h
    · subst xh
      have hb : s.nodes.length ≤ x := by
        by_contra hl
        exact hc ⟨rfl, Nat.lt_of_not_le hl⟩
      simp [Stac.node_oob _ _ hb]
    · simp [xh]

theorem Stac.remove_fst (s : Stac) (h : Handle) (hne : h ≠ rootHandle) :
    (s.remove h).1 = .ok ((s.node h).object, (s.node h).href) := by
  by_cases hmem : h ∈ (s.node h).children <;>
    rcases hp : (s.node h).parent with _ | p <;>
      rcases hh : (s.node h).href with _ | x0 <;>
        (unfold Stac.remove
         rw [if_neg hne]
         simp [Stac.node_mk, Stac.getD_nodes, Stac.node_modify_object,
           Stac.node_modify_href, Stac.node_modify_parent,
           Stac.disconnect_node_object, Stac.disconnect_node_href,
           Stac.disconnect_node_parent, fold_disconnect_node_object,
           fold_disconnect_node_href, fold_disconnect_node_parent,
           Stac.getElem_nodes, hmem, hp, hh])

theorem Stac.remove_node_parent (s : Stac) (h : Handle) (hne : h ≠ rootHandle)
    (x : Handle) :
    ((s.remove h).2.node x).parent
      = if x = h ∨ x ∈ (s.node h).children then none else (s.node x).parent := by
  by_cases hmem : h ∈ (s.node h).children <;>
    by_cases xh : x = h <;>
      by_cases xmem : x ∈ (s.node h).children <;>
        rcases hp : (s.node h).parent with _ | p <;>
          rcases hh : (s.node h).href with _ | x0 <;>
            (unfold Stac.remove
             rw [if_neg hne]
             simp [Stac.node_mk, Stac.getD_nodes, Stac.getElem_nodes,
               Stac.node_modify_object, Stac.node_modify_href,
               Stac.node_modify_parent, Stac.node_modify_parent_self_none,
               Stac.node_modify_children_self_nil,
               Stac.disconnect_node_object, Stac.disconnect_node_href,
               Stac.disconnect_node_parent, fold_disconnect_node_object,
               fold_disconnect_node_href, fold_disconnect_node_parent,
               hmem, xh, xmem, hp, hh])

theorem Stac.node_modify_object_self_none (s : Stac) (h x : Handle) :
    ((s.modifyNode h fun n => { n with object := (none : Option Object) }).node x).object
      = if x = h then none else (s.node x).object := by
  rw [Stac.node_modify]
  split
  · next hc => simp [hc.1]
  · next hc =>
    by_cases xh : x = h
    · subst xh
      have hb : s.nodes.length ≤ x := by
        by_contra hl
        exact hc ⟨rfl, Nat.lt_of_not_le hl⟩
      simp [Stac.node_oob _ _ hb]
    · simp [xh]

theorem Stac.node_modify_href_self_none (s : Stac) (h x : Handle) :
    ((s.modifyNode h fun n => { n with href := (none : Option String) }).node x).href
      = if x = h then none else (s.node x).href := by
  rw [Stac.node_modify]
  split
  · next hc => simp [hc.1]
  · next hc =>
    by_cases xh : x = h
    · subst xh
      have hb : s.nodes.length ≤ x := by
        by_contra hl
        exact hc ⟨rfl, Nat.lt_of_not_le hl⟩
      simp [Stac.node_oob _ _ hb]
    · simp [xh]

theorem Stac.remove_node_object (s : Stac) (h : Handle) (hne : h ≠ rootHandle)
    (x : Handle) :
    ((s.remove h).2.node x).object
      = if x = h then none else (s.node x).object := by
  by_cases hmem : h ∈ (s.node h).children <;>
    by_cases xh : x = h <;>
      rcases hp : (s.node h).parent with _ | p <;>
        rcases hh : (s.node h).href with _ | x0 <;>
          (unfold Stac.remove
           rw [if_neg hne]
           simp [Stac.node_mk, Stac.getD_nodes, Stac.getElem_nodes,
             Stac.node_modify_object, Stac.node_modify_href,
             Stac.node_modify_parent, Stac.node_modify_parent_self_none,
             Stac.node_modify_children_self_nil,
             Stac.disconnect_node_object, Stac.disconnect_node_href,
             Stac.disconnect_node_parent, fold_disconnect_node_object,
             fold_disconnect_node_href, fold_disconnect_node_parent,
             Stac.node_modify_object_self_none, Stac.node_modify_href_self_none,
             hmem, xh, hp, hh])

theorem Stac.remove_node_children (s : Stac) (h : Handle) (hne : h ≠ rootHandle)
    (x : Handle) :
    ((s.remove h).2.node x).children
      = if x = h then []
        else if (s.node h).parent = some x ∧ h ∉ (s.node h).children then
          (s.node x).children.erase h
        else (s.node x).children := by
  by_cases hmem : h ∈ (s.node h).children <;>
    by_cases xh : x = h <;>
      rcases hp : (s.node h).parent with _ | p <;>
        rcases hh : (s.node h).href with _ | x0 <;>
          (try by_cases xp : x = p) <;>
            (unfold Stac.remove
             rw [if_neg hne]
             simp [Stac.node_mk, Stac.getD_nodes, Stac.getElem_nodes,
               Stac.node_modify_object, Stac.node_modify_href,
               Stac.node_modify_parent, Stac.node_modify_children,
               Stac.node_modify_parent_self_none,
               Stac.node_modify_children_self_nil,
               Stac.node_modify_object_self_none, Stac.node_modify_href_self_none,
               Stac.disconnect_node_object, Stac.disconnect_node_href,
               Stac.disconnect_node_parent, Stac.disconnect_node_children,
               fold_disconnect_node_object, fold_disconnect_node_href,
               fold_disconnect_node_parent, fold_disconnect_node_children_ne,
               fold_disconnect_node_children_self,
               hmem, xh, hp, hh])
  all_goals (try simp_all [eq_comm])
  all_goals
    exact fold_disconnect_node_children_self _ _ _
      (by simp [Stac.node_modify_children_self_nil])

theorem Stac.remove_hrefs (s : Stac) (h : Handle) (hne : h ≠ rootHandle) :
    (s.remove h).2.hrefs
      = match (s.node h).href with
        | some x => hrefsRemove s.hrefs x
        | none => s.hrefs := by
  by_cases hmem : h ∈ (s.node h).children <;>
    rcases hp : (s.node h).parent with _ | p <;>
      rcases hh : (s.node h).href with _ | x0 <;>
        (unfold Stac.remove
         rw [if_neg hne]
         simp [Stac.node_mk, Stac.getD_nodes, Stac.getElem_nodes,
           Stac.node_modify_object, Stac.node_modify_href,
           Stac.node_modify_parent, Stac.node_modify_parent_self_none,
           Stac.node_modify_children_self_nil,
           Stac.node_modify_object_self_none, Stac.node_modify_href_self_none,
           Stac.disconnect_node_object, Stac.disconnect_node_href,
           Stac.disconnect_node_parent, fold_disconnect_node_object,
           fold_disconnect_node_href, fold_disconnect_node_parent,
           Stac.modify_hrefs, Stac.disconnect_hrefs, fold_disconnect_hrefs,
           hmem, hp, hh])

/-- C4.  Remove on the root handle fails with CannotRemoveRoot and leaves the
store unchanged; for every non-root handle (of a store where the node is not
its own child, as in every store built through the API), remove detaches each
of the node's children (each child's parent becomes None, the children are not
deleted), detaches the node from its own parent, deletes its location from the
location-to-handle index, marks its slot free for reuse, and returns whatever
document and location the node held. -/
theorem claim_c4_remove (s : Stac) (h : Handle) :
    s.remove s.root = (.error .cannotRemoveRoot, s) ∧
    (h ≠ s.root → h ∉ (s.node h).children →
      (s.remove h).1 = .ok ((s.node h).object, (s.node h).href) ∧
      (∀ c ∈ (s.node h).children, ((s.remove h).2.node c).parent = none) ∧
      (∀ c ∈ (s.node h).children, c ≠ h →
        ((s.remove h).2.node c).object = (s.node c).object) ∧
      ((s.remove h).2.node h).children = [] ∧
      ((s.remove h).2.node h).parent = none ∧
      (∀ p, (s.node h).parent = some p → p ≠ h →
        ((s.remove h).2.node p).children = (s.node p).children.erase h) ∧
      (∀ x, (s.node h).href = some x →
        hrefsLookup ((s.remove h).2.hrefs) x = none) ∧
      (s.remove h).2.freeNodes = h :: s.freeNodes ∧
      ((s.remove h).2.node h).object = none) := by
  refine ⟨rfl, fun hne hsc => ⟨Stac.remove_fst s h hne, ?_, ?_, ?_, ?_, ?_, ?_,
    Stac.remove_freeNodes s h hne, ?_⟩⟩
  · intro c hc
    rw [Stac.remove_node_parent s h hne c]
    simp [hc]
  · intro c hc hch
    rw [Stac.remove_node_object s h hne c]
    simp [hch]
  · rw [Stac.remove_node_children s h hne h]
    simp
  · rw [Stac.remove_node_parent s h hne h]
    simp
  · intro p hp hph
    rw [Stac.remove_node_children s h hne p]
    simp [hp, hsc, hph]
  · intro x hx
    rw [Stac.remove_hrefs s h hne, hx]
    exact hrefsLookup_remove_self _ _
  · rw [Stac.remove_node_object s h hne h]
    simp

/-- Witness for C4: removing the collection (handle 1) from the concrete
three-node store of the C2 scenario. -/
theorem claim_c4_remove_witness :
    (1 : Handle) ≠ c2Step2.1.root ∧ 1 ∉ (c2Step2.1.node 1).children ∧
    ((c2Step2.1.remove 1).1
        = .ok ((c2Step2.1.node 1).object, (c2Step2.1.node 1).href) ∧
      (∀ c ∈ (c2Step2.1.node 1).children,
        ((c2Step2.1.remove 1).2.node c).parent = none) ∧
      (∀ c ∈ (c2Step2.1.node 1).children, c ≠ 1 →
        ((c2Step2.1.remove 1).2.node c).object = (c2Step2.1.node c).object) ∧
      ((c2Step2.1.remove 1).2.node 1).children = [] ∧
      ((c2Step2.1.remove 1).2.node 1).parent = none ∧
      (∀ p, (c2Step2.1.node 1).parent = some p → p ≠ 1 →
        ((c2Step2.1.remove 1).2.node p).children
          = (c2Step2.1.node p).children.erase 1) ∧
      (∀ x, (c2Step2.1.node 1).href = some x →
        hrefsLookup ((c2Step2.1.remove 1).2.hrefs) x = none) ∧
      (c2Step2.1.remove 1).2.freeNodes = 1 :: c2Step2.1.freeNodes ∧
      ((c2Step2.1.remove 1).2.node 1).object = none) :=
  ⟨by decide, by decide,
    (claim_c4_remove c2Step2.1 1).2 (by decide) (by decide)⟩

/- ---------------------------------------------------------------------------
Lemmas about `add_node`, `connect`, the link scan and `set_object`.
--------------------------------------------------------------------------- -/

theorem Stac.hrefsUpdate_node (s : Stac) (m : List (String × Handle))
    (x : Handle) : (Stac.mk s.reader s.nodes s.freeNodes m s.readLog).node x = s.node x := rfl

theorem Stac.node_href_some_bound (s : Stac) (h : Handle) (x : String)
    (hx : (s.node h).href = some x) : h < s.nodes.length := by
  by_contra hb
  rw [Stac.node_oob s h (Nat.le_of_not_lt hb)] at hx
  exact Option.noConfusion hx

theorem Stac.node_object_some_bound (s : Stac) (h : Handle) (o : Object)
    (ho : (s.node h).object = some o) : h < s.nodes.length := by
  by_contra hb
  rw [Stac.node_oob s h (Nat.le_of_not_lt hb)] at ho
  exact Option.noConfusion ho

theorem Stac.addNode_readLog (s : Stac) : (s.addNode).2.readLog = s.readLog := by
  unfold Stac.addNode
  split <;> rfl

theorem Stac.addNode_hrefs (s : Stac) : (s.addNode).2.hrefs = s.hrefs := by
  unfold Stac.addNode
  split <;> rfl

theorem Stac.addNode_reader (s : Stac) : (s.addNode).2.reader = s.reader := by
  unfold Stac.addNode
  split <;> rfl

theorem Stac.addNode_node_object (s : Stac) (x : Handle) :
    ((s.addNode).2.node x).object = (s.node x).object := by
  unfold Stac.addNode
  split
  · rfl
  · show ((s.nodes ++ [({} : Node)]).getD x ({} : Node)).object
        = ((s.nodes.getD x ({} : Node))).object
    rw [List.getD_eq_getElem?_getD, List.getD_eq_getElem?_getD]
    rcases Nat.lt_trichotomy x s.nodes.length with hb | hb | hb
    · rw [List.getElem?_append_left hb]
    · subst hb
      rw [List.getElem?_eq_none (Nat.le_refl _)]
      rw [List.getElem?_append_right (Nat.le_refl _)]
      simp
    · rw [List.getElem?_eq_none (Nat.le_of_lt hb),
        List.getElem?_eq_none (by simp; omega)]

theorem Stac.addNode_fst_length (s : Stac) (hf : s.freeNodes = []) :
    (s.addNode).1 = s.nodes.length := by
  unfold Stac.addNode
  rw [hf]

theorem Stac.addNode_freeNodes_nil (s : Stac) (hf : s.freeNodes = []) :
    (s.addNode).2.freeNodes = [] := by
  unfold Stac.addNode
  rw [hf]

theorem Stac.addNode_length_le (s : Stac) :
    s.nodes.length ≤ (s.addNode).2.nodes.length := by
  unfold Stac.addNode
  split
  · exact Nat.le_refl _
  · simp

theorem Stac.setHref_readLog (s : Stac) (h : Handle) (x : String) :
    (s.setHref h x).readLog = s.readLog := rfl

theorem Stac.setHref_reader (s : Stac) (h : Handle) (x : String) :
    (s.setHref h x).reader = s.reader := rfl

theorem Stac.setHref_freeNodes (s : Stac) (h : Handle) (x : String) :
    (s.setHref h x).freeNodes = s.freeNodes := rfl

theorem Stac.setHref_node_object (s : Stac) (h : Handle) (x0 : String)
    (x : Handle) : ((s.setHref h x0).node x).object = (s.node x).object := by
  unfold Stac.setHref
  exact Stac.node_modify_object _ h x _ (fun n => rfl)

theorem Stac.setHref_nodes_length (s : Stac) (h : Handle) (x0 : String) :
    (s.setHref h x0).nodes.length = s.nodes.length := by
  unfold Stac.setHref
  exact Stac.modify_nodes_length _ h _

theorem Stac.connect_inv (s s' : Stac) (p c : Handle)
    (hc : s.connect p c = some s') :
    (∃ old, (s.node c).parent = some old ∧ c ∈ (s.node old).children ∧
      s' = ((s.modifyNode old fun n =>
              { n with children := swapRemove n.children c }).modifyNode c fun n =>
              { n with parent := some p }).modifyNode p fun n =>
              { n with children := setInsert n.children c }) ∨
    ((s.node c).parent = none ∧
      s' = (s.modifyNode c fun n =>
              { n with parent := some p }).modifyNode p fun n =>
              { n with children := setInsert n.children c }) := by
  unfold Stac.connect at hc
  rcases hpar : (s.node c).parent with _ | old <;> rw [hpar] at hc <;>
    dsimp only [] at hc
  · right
    exact ⟨rfl, (Option.some.injEq _ _ ▸ hc).symm⟩
  · by_cases hmem : c ∈ (s.node old).children
    · rw [if_pos hmem] at hc
      dsimp only [] at hc
      left
      exact ⟨old, rfl, hmem, (Option.some.injEq _ _ ▸ hc).symm⟩
    · rw [if_neg hmem] at hc
      exact Option.noConfusion hc

theorem Stac.connect_readLog (s s' : Stac) (p c : Handle)
    (hc : s.connect p c = some s') : s'.readLog = s.readLog := by
  rcases Stac.connect_inv s s' p c hc with ⟨old, _, _, he⟩ | ⟨_, he⟩ <;>
    subst he <;> rfl

theorem Stac.connect_reader (s s' : Stac) (p c : Handle)
    (hc : s.connect p c = some s') : s'.reader = s.reader := by
  rcases Stac.connect_inv s s' p c hc with ⟨old, _, _, he⟩ | ⟨_, he⟩ <;>
    subst he <;> rfl

theorem Stac.connect_hrefs (s s' : Stac) (p c : Handle)
    (hc : s.connect p c = some s') : s'.hrefs = s.hrefs := by
  rcases Stac.connect_inv s s' p c hc with ⟨old, _, _, he⟩ | ⟨_, he⟩ <;>
    subst he <;> rfl

theorem Stac.connect_freeNodes (s s' : Stac) (p c : Handle)
    (hc : s.connect p c = some s') : s'.freeNodes = s.freeNodes := by
  rcases Stac.connect_inv s s' p c hc with ⟨old, _, _, he⟩ | ⟨_, he⟩ <;>
    subst he <;> rfl

theorem Stac.connect_node_object (s s' : Stac) (p c : Handle)
    (hc : s.connect p c = some s') (x : Handle) :
    (s'.node x).object = (s.node x).object := by
  rcases Stac.connect_inv s s' p c hc with ⟨old, _, _, he⟩ | ⟨_, he⟩ <;> subst he
  · rw [Stac.node_modify_object _ p x
        (fun n => { n with children := setInsert n.children c }) (fun n => rfl),
      Stac.node_modify_object _ c x
        (fun n => { n with parent := some p }) (fun n => rfl),
      Stac.node_modify_object _ old x
        (fun n => { n with children := swapRemove n.children c }) (fun n => rfl)]
  · rw [Stac.node_modify_object _ p x
        (fun n => { n with children := setInsert n.children c }) (fun n => rfl),
      Stac.node_modify_object _ c x
        (fun n => { n with parent := some p }) (fun n => rfl)]

theorem Stac.connect_node_href (s s' : Stac) (p c : Handle)
    (hc : s.connect p c = some s') (x : Handle) :
    (s'.node x).href = (s.node x).href := by
  rcases Stac.connect_inv s s' p c hc with ⟨old, _, _, he⟩ | ⟨_, he⟩ <;> subst he
  · rw [Stac.node_modify_href _ p x
        (fun n => { n with children := setInsert n.children c }) (fun n => rfl),
      Stac.node_modify_href _ c x
        (fun n => { n with parent := some p }) (fun n => rfl),
      Stac.node_modify_href _ old x
        (fun n => { n with children := swapRemove n.children c }) (fun n => rfl)]
  · rw [Stac.node_modify_href _ p x
        (fun n => { n with children := setInsert n.children c }) (fun n => rfl),
      Stac.node_modify_href _ c x
        (fun n => { n with parent := some p }) (fun n => rfl)]

theorem Stac.connect_nodes_length (s s' : Stac) (p c : Handle)
    (hc : s.connect p c = some s') : s'.nodes.length = s.nodes.length := by
  rcases Stac.connect_inv s s' p c hc with ⟨old, _, _, he⟩ | ⟨_, he⟩ <;>
    subst he <;> simp [Stac.modify_nodes_length]

theorem Stac.linkScan_preserve {α : Type} (g : Stac → α)
    (hmark : ∀ (s : Stac) (h : Handle),
      g (s.modifyNode h fun n => { n with isFromItemLink := true }) = g s)
    (haddN : ∀ s : Stac, g (s.addNode).2 = g s)
    (hsetH : ∀ (s : Stac) (h : Handle) (x : String), g (s.setHref h x) = g s)
    (hconn : ∀ (s s' : Stac) (p c : Handle), s.connect p c = some s' → g s' = g s) :
    ∀ (ls : List Link) (s s' : Stac) (h : Handle) (hrf : Option String),
      s.linkScan h hrf ls = some s' → g s' = g s := by
  intro ls
  induction ls with
  | nil =>
    intro s s' h hrf hs
    simp only [Stac.linkScan, Option.some.injEq] at hs
    rw [hs]
  | cons l ls ih =>
    intro s s' h hrf hs
    simp only [Stac.linkScan] at hs
    split at hs
    · split at hs
      · exact Option.noConfusion hs
      · next s2 heq2 =>
        rw [ih s2 s' h hrf hs]
        have gq : ∀ hrfx : String,
            g (match hrefsLookup s.hrefs hrfx with
                | some o => (o, s)
                | none =>
                  (s.addNode.1, s.addNode.2.setHref s.addNode.1 hrfx)).2 = g s := by
          intro hrfx
          rcases hrefsLookup s.hrefs hrfx with _ | o
          · dsimp only []
            rw [hsetH, haddN]
          · rfl
        split at heq2
        · split at heq2
          · rw [hconn _ _ _ _ heq2, hmark, gq]
          · rw [hconn _ _ _ _ heq2, gq]
        · split at heq2
          · rw [hconn _ _ _ _ heq2, gq]
          · simp only [Option.some.injEq] at heq2
            rw [← heq2, gq]
    · exact ih s s' h hrf hs

theorem Stac.linkScan_preserveProp (Q : Stac → Prop)
    (hmark : ∀ (s : Stac) (h : Handle), Q s →
      Q (s.modifyNode h fun n => { n with isFromItemLink := true }))
    (haddN : ∀ s : Stac, Q s → Q (s.addNode).2)
    (hsetH : ∀ (s : Stac) (h : Handle) (x : String), Q s → Q (s.setHref h x))
    (hconn : ∀ (s s' : Stac) (p c : Handle), s.connect p c = some s' → Q s → Q s') :
    ∀ (ls : List Link) (s s' : Stac) (h : Handle) (hrf : Option String),
      s.linkScan h hrf ls = some s' → Q s → Q s' := by
  intro ls
  induction ls with
  | nil =>
    intro s s' h hrf hs hq
    simp only [Stac.linkScan, Option.some.injEq] at hs
    rw [← hs]
    exact hq
  | cons l ls ih =>
    intro s s' h hrf hs hq
    simp only [Stac.linkScan] at hs
    split at hs
    · split at hs
      · exact Option.noConfusion hs
      · next s2 heq2 =>
        refine ih s2 s' h hrf hs ?_
        have gq : ∀ hrfx : String,
            Q (match hrefsLookup s.hrefs hrfx with
                | some o => (o, s)
                | none =>
                  (s.addNode.1, s.addNode.2.setHref s.addNode.1 hrfx)).2 := by
          intro hrfx
          rcases hrefsLookup s.hrefs hrfx with _ | o
          · dsimp only []
            exact hsetH _ _ _ (haddN _ hq)
          · exact hq
        split at heq2
        · split at heq2
          · exact hconn _ _ _ _ heq2 (hmark _ _ (gq _))
          · exact hconn _ _ _ _ heq2 (gq _)
        · split at heq2
          · exact hconn _ _ _ _ heq2 (gq _)
          · simp only [Option.some.injEq] at heq2
            rw [← heq2]
            exact gq _
    · exact ih s s' h hrf hs hq

theorem Stac.linkScan_readLog (ls : List Link) (s s' : Stac) (h : Handle)
    (hrf : Option String) (hs : s.linkScan h hrf ls = some s') :
    s'.readLog = s.readLog :=
  Stac.linkScan_preserve (fun s => s.readLog)
    (fun _ _ => rfl) Stac.addNode_readLog (fun _ _ _ => rfl)
    Stac.connect_readLog ls s s' h hrf hs

theorem Stac.linkScan_reader (ls : List Link) (s s' : Stac) (h : Handle)
    (hrf : Option String) (hs : s.linkScan h hrf ls = some s') :
    s'.reader = s.reader :=
  Stac.linkScan_preserve (fun s => s.reader)
    (fun _ _ => rfl) Stac.addNode_reader (fun _ _ _ => rfl)
    Stac.connect_reader ls s s' h hrf hs

theorem Stac.linkScan_node_object (ls : List Link) (s s' : Stac) (h : Handle)
    (hrf : Option String) (hs : s.linkScan h hrf ls = some s') (x : Handle) :
    (s'.node x).object = (s.node x).object :=
  Stac.linkScan_preserve (fun s => (s.node x).object)
    (fun s h => Stac.node_modify_object s h x _ (fun n => rfl))
    (fun s => Stac.addNode_node_object s x)
    (fun s h x0 => Stac.setHref_node_object s h x0 x)
    (fun s s' p c hc => Stac.connect_node_object s s' p c hc x) ls s s' h hrf hs

theorem Stac.linkScan_length_le (ls : List Link) (s s' : Stac) (h : Handle)
    (hrf : Option String) (hs : s.linkScan h hrf ls = some s') :
    s.nodes.length ≤ s'.nodes.length := by
  refine Stac.linkScan_preserveProp (fun t => s.nodes.length ≤ t.nodes.length)
    ?_ ?_ ?_ ?_ ls s s' h hrf hs (Nat.le_refl _)
  · intro t h hq
    rw [Stac.modify_nodes_length]
    exact hq
  · intro t hq
    exact Nat.le_trans hq (Stac.addNode_length_le t)
  · intro t h x hq
    rw [Stac.setHref_nodes_length]
    exact hq
  · intro t t' p c hc hq
    rw [Stac.connect_nodes_length t t' p c hc]
    exact hq

theorem Stac.linkScan_freeNodes_nil (ls : List Link) (s s' : Stac) (h : Handle)
    (hrf : Option String) (hs : s.linkScan h hrf ls = some s')
    (hf : s.freeNodes = []) : s'.freeNodes = [] := by
  refine Stac.linkScan_preserveProp (fun t => t.freeNodes = [])
    ?_ ?_ ?_ ?_ ls s s' h hrf hs hf
  · intro t h hq
    exact hq
  · intro t hq
    exact Stac.addNode_freeNodes_nil t hq
  · intro t h x hq
    exact hq
  · intro t t' p c hc hq
    rw [Stac.connect_freeNodes t t' p c hc]
    exact hq

theorem Stac.setObject_inv (s s' : Stac) (h : Handle) (obj : Object)
    (hrf : Option String) (hso : s.setObject h obj hrf = some s') :
    ∃ s1, s.linkScan h hrf obj.links = some s1 ∧
      s' = (match hrf with
            | some x => s1.setHref h x
            | none => s1.modifyNode h fun n => { n with href := none }).modifyNode h
              fun n => { n with object := some obj } := by
  unfold Stac.setObject at hso
  rcases hscan : s.linkScan h hrf obj.links with _ | s1 <;> rw [hscan] at hso <;>
    dsimp only [] at hso
  · exact Option.noConfusion hso
  · exact ⟨s1, rfl, (Option.some.injEq _ _ ▸ hso).symm⟩

theorem Stac.setObject_readLog (s s' : Stac) (h : Handle) (obj : Object)
    (hrf : Option String) (hso : s.setObject h obj hrf = some s') :
    s'.readLog = s.readLog := by
  rcases Stac.setObject_inv s s' h obj hrf hso with ⟨s1, hscan, he⟩
  subst he
  rw [Stac.modify_readLog]
  rcases hrf with _ | x
  · rw [Stac.modify_readLog]
    exact Stac.linkScan_readLog _ _ _ _ _ hscan
  · rw [Stac.setHref_readLog]
    exact Stac.linkScan_readLog _ _ _ _ _ hscan

theorem Stac.setObject_reader (s s' : Stac) (h : Handle) (obj : Object)
    (hrf : Option String) (hso : s.setObject h obj hrf = some s') :
    s'.reader = s.reader := by
  rcases Stac.setObject_inv s s' h obj hrf hso with ⟨s1, hscan, he⟩
  subst he
  rw [Stac.modify_reader]
  rcases hrf with _ | x
  · rw [Stac.modify_reader]
    exact Stac.linkScan_reader _ _ _ _ _ hscan
  · rw [Stac.setHref_reader]
    exact Stac.linkScan_reader _ _ _ _ _ hscan

theorem Stac.setObject_length_le (s s' : Stac) (h : Handle) (obj : Object)
    (hrf : Option String) (hso : s.setObject h obj hrf = some s') :
    s.nodes.length ≤ s'.nodes.length := by
  rcases Stac.setObject_inv s s' h obj hrf hso with ⟨s1, hscan, he⟩
  subst he
  rw [Stac.modify_nodes_length]
  rcases hrf with _ | x
  · rw [Stac.modify_nodes_length]
    exact Stac.linkScan_length_le _ _ _ _ _ hscan
  · rw [Stac.setHref_nodes_length]
    exact Stac.linkScan_length_le _ _ _ _ _ hscan

theorem Stac.setObject_freeNodes_nil (s s' : Stac) (h : Handle) (obj : Object)
    (hrf : Option String) (hso : s.setObject h obj hrf = some s')
    (hf : s.freeNodes = []) : s'.freeNodes = [] := by
  rcases Stac.setObject_inv s s' h obj hrf hso with ⟨s1, hscan, he⟩
  subst he
  rw [Stac.modify_freeNodes]
  rcases hrf with _ | x
  · rw [Stac.modify_freeNodes]
    exact Stac.linkScan_freeNodes_nil _ _ _ _ _ hscan hf
  · rw [Stac.setHref_freeNodes]
    exact Stac.linkScan_freeNodes_nil _ _ _ _ _ hscan hf

theorem Stac.setObject_node_object (s s' : Stac) (h : Handle) (obj : Object)
    (hrf : Option String) (hso : s.setObject h obj hrf = some s')
    (hb : h < s.nodes.length) (x : Handle) :
    (s'.node x).object = if x = h then some obj else (s.node x).object := by
  rcases Stac.setObject_inv s s' h obj hrf hso with ⟨s1, hscan, he⟩
  subst he
  have hlen1 : s.nodes.length ≤ s1.nodes.length :=
    Stac.linkScan_length_le _ _ _ _ _ hscan
  by_cases xh : x = h
  · subst xh
    rcases hrf with _ | y
    · rw [Stac.node_modify_self _ x _
        (by rw [Stac.modify_nodes_length]; exact Nat.lt_of_lt_of_le hb hlen1)]
      simp
    · rw [Stac.node_modify_self _ x _
        (by rw [Stac.setHref_nodes_length]; exact Nat.lt_of_lt_of_le hb hlen1)]
      simp
  · rw [Stac.node_modify_ne _ h x _ xh, if_neg xh]
    rcases hrf with _ | y
    · rw [Stac.node_modify_object _ h x
        (fun n => { n with href := none }) (fun n => rfl)]
      exact Stac.linkScan_node_object _ _ _ _ _ hscan x
    · rw [Stac.setHref_node_object]
      exact Stac.linkScan_node_object _ _ _ _ _ hscan x

theorem Stac.ensureResolved_of_some (s : Stac) (h : Handle) (o : Object)
    (ho : (s.node h).object = some o) : s.ensureResolved h = some (.ok (), s) := by
  unfold Stac.ensureResolved
  rw [if_pos (by rw [ho]; rfl)]

theorem Stac.get_of_some (s : Stac) (h : Handle) (o : Object)
    (ho : (s.node h).object = some o) : s.get h = some (.ok o, s) := by
  unfold Stac.get
  rw [Stac.ensureResolved_of_some s h o ho]
  dsimp only []
  rw [ho]

theorem Stac.ensureResolved_unresolvable (s : Stac) (h : Handle)
    (ho : (s.node h).object = none) (hh : (s.node h).href = none) :
    s.ensureResolved h = some (.error .unresolvableNode, s) := by
  unfold Stac.ensureResolved
  rw [if_neg (by rw [ho]; simp), hh]

theorem Stac.ensureResolved_inv_read (s : Stac) (h : Handle) (x : String)
    (ho : (s.node h).object = none) (hx : (s.node h).href = some x) :
    s.ensureResolved h
      = (let s1 : Stac :=
           { s.modifyNode h (fun n => { n with href := none }) with
             readLog := s.readLog ++ [x] }
         match s.reader x with
         | none => some (.error .readFailed, s1)
         | some obj =>
           match s1.setObject h obj (some x) with
           | none => none
           | some s2 => some (.ok (), s2)) := by
  unfold Stac.ensureResolved
  rw [if_neg (by rw [ho]; simp), hx]

/-- C6.  For every handle whose node has neither a cached document nor a
stored location, get fails with UnresolvableNode; if the node has no document
but does have a location, get passes that location to the injected reader
(recorded in the read log) and returns the resolved document on success. -/
theorem claim_c6_get_resolution (s : Stac) (h : Handle) :
    ((s.node h).object = none → (s.node h).href = none →
      s.get h = some (.error .unresolvableNode, s)) ∧
    ((s.node h).object = none → ∀ x, (s.node h).href = some x →
      (∀ r s1, s.get h = some (r, s1) → s1.readLog = s.readLog ++ [x]) ∧
      (s.reader x = none → ∀ r s1, s.get h = some (r, s1) →
        r = .error .readFailed) ∧
      (∀ o, s.reader x = some o → ∀ r s1, s.get h = some (r, s1) →
        r = .ok o)) := by
  constructor
  · intro ho hh
    unfold Stac.get
    rw [Stac.ensureResolved_unresolvable s h ho hh]
  · intro ho x hx
    have hb : h < s.nodes.length := Stac.node_href_some_bound s h x hx
    have main : ∀ r s1, s.get h = some (r, s1) →
        s1.readLog = s.readLog ++ [x] ∧
        (s.reader x = none → r = .error .readFailed) ∧
        (∀ o, s.reader x = some o → r = .ok o) := by
      intro r s1 hget
      unfold Stac.get at hget
      rw [Stac.ensureResolved_inv_read s h x ho hx] at hget
      dsimp only [] at hget
      rcases hrd : s.reader x with _ | o <;> rw [hrd] at hget <;>
        dsimp only [] at hget
      · simp only [Option.some.injEq, Prod.mk.injEq] at hget
        obtain ⟨h1, h2⟩ := hget
        refine ⟨?_, fun _ => h1.symm, fun o2 ho2 => Option.noConfusion ho2⟩
        rw [← h2]
      · rcases hsob : Stac.setObject
            { s.modifyNode h (fun n => { n with href := none }) with
              readLog := s.readLog ++ [x] } h o (some x) with _ | s2 <;>
          rw [hsob] at hget <;> dsimp only [] at hget
        · exact Option.noConfusion hget
        · have hob : (s2.node h).object = some o := by
            rw [Stac.setObject_node_object _ s2 h o (some x) hsob
              (by rw [Stac.modify_nodes_length]; exact hb) h]
            simp
          rw [hob] at hget
          dsimp only [] at hget
          simp only [Option.some.injEq, Prod.mk.injEq] at hget
          obtain ⟨h1, h2⟩ := hget
          refine ⟨?_, fun hn => absurd hn (by simp), fun o2 ho2 => ?_⟩
          · rw [← h2, Stac.setObject_readLog _ _ _ _ _ hsob]
          · injection ho2 with e
            rw [← h1, e]
    exact ⟨fun r s1 hg => (main r s1 hg).1,
      fun hn r s1 hg => (main r s1 hg).2.1 hn,
      fun o ho2 r s1 hg => (main r s1 hg).2.2 o ho2⟩

/-- Witness for C6: resolving the placeholder child (handle 1) of `c6Store`
through its reader. -/
theorem claim_c6_get_resolution_witness :
    (c6Store.1.node 1).object = none ∧
    (c6Store.1.node 1).href = some "c1.json" ∧
    ((∀ r s1, c6Store.1.get 1 = some (r, s1) →
        s1.readLog = c6Store.1.readLog ++ ["c1.json"]) ∧
      (c6Store.1.reader "c1.json" = none →
        ∀ r s1, c6Store.1.get 1 = some (r, s1) → r = .error .readFailed) ∧
      (∀ o, c6Store.1.reader "c1.json" = some o →
        ∀ r s1, c6Store.1.get 1 = some (r, s1) → r = .ok o)) :=
  ⟨rfl, rfl, (claim_c6_get_resolution c6Store.1 1).2 rfl "c1.json" rfl⟩

theorem Stac.get_ok_object (s s1 : Stac) (h : Handle) (o : Object)
    (hget : s.get h = some (.ok o, s1)) : (s1.node h).object = some o := by
  unfold Stac.get at hget
  rcases her : s.ensureResolved h with _ | ⟨r2, s2⟩ <;> rw [her] at hget
  · exact Option.noConfusion hget
  · rcases r2 with e | u
    · dsimp only [] at hget
      simp only [Option.some.injEq, Prod.mk.injEq] at hget
      exact absurd hget.1 (by simp)
    · dsimp only [] at hget
      rcases hoo : (s2.node h).object with _ | oo <;> rw [hoo] at hget <;>
        dsimp only [] at hget
      · exact Option.noConfusion hget
      · simp only [Option.some.injEq, Prod.mk.injEq] at hget
        rw [← hget.2, hoo]
        rw [Except.ok.injEq] at hget
        rw [hget.1]

theorem Stac.get_readLog_of_none (s s1 : Stac) (h : Handle) (x : String)
    (r : Except Error Object) (ho : (s.node h).object = none)
    (hx : (s.node h).href = some x) (hget : s.get h = some (r, s1)) :
    s1.readLog = s.readLog ++ [x] := by
  unfold Stac.get at hget
  rw [Stac.ensureResolved_inv_read s h x ho hx] at hget
  dsimp only [] at hget
  rcases hrd : s.reader x with _ | o <;> rw [hrd] at hget <;>
    dsimp only [] at hget
  · simp only [Option.some.injEq, Prod.mk.injEq] at hget
    rw [← hget.2]
  · rcases hsob : Stac.setObject
        { s.modifyNode h (fun n => { n with href := none }) with
          readLog := s.readLog ++ [x] } h o (some x) with _ | s2 <;>
      rw [hsob] at hget <;> dsimp only [] at hget
    · exact Option.noConfusion hget
    · rcases hoo : (s2.node h).object with _ | oo <;> rw [hoo] at hget <;>
        dsimp only [] at hget
      · exact Option.noConfusion hget
      · simp only [Option.some.injEq, Prod.mk.injEq] at hget
        rw [← hget.2, Stac.setObject_readLog _ _ _ _ _ hsob]

theorem Stac.get_object_mono (s s1 : Stac) (h : Handle)
    (r : Except Error Object) (hget : s.get h = some (r, s1)) (n : Handle)
    (o2 : Object) (ho2 : (s.node n).object = some o2) :
    (s1.node n).object.isSome := by
  unfold Stac.get at hget
  by_cases hs : (s.node h).object.isSome
  · rcases ho : (s.node h).object with _ | o
    · rw [ho] at hs
      exact absurd hs (by simp)
    · rw [Stac.ensureResolved_of_some s h o ho] at hget
      dsimp only [] at hget
      rcases hoo : (s.node h).object with _ | oo <;> rw [hoo] at hget <;>
        dsimp only [] at hget
      · exact Option.noConfusion hget
      · simp only [Option.some.injEq, Prod.mk.injEq] at hget
        rw [← hget.2, ho2]
        rfl
  · have ho : (s.node h).object = none := by
      rcases hoz : (s.node h).object with _ | o
      · rfl
      · rw [hoz] at hs
        exact absurd (by simp) hs
    rcases hx : (s.node h).href with _ | x
    · rw [Stac.ensureResolved_unresolvable s h ho hx] at hget
      dsimp only [] at hget
      simp only [Option.some.injEq, Prod.mk.injEq] at hget
      rw [← hget.2, ho2]
      rfl
    · rw [Stac.ensureResolved_inv_read s h x ho hx] at hget
      dsimp only [] at hget
      have hmod : ∀ m : Handle,
          (({ s.modifyNode h (fun nn => { nn with href := none }) with
              readLog := s.readLog ++ [x] } : Stac).node m).object
            = (s.node m).object := by
        intro m
        show ((s.modifyNode h (fun nn => { nn with href := none })).node m).object
          = (s.node m).object
        exact Stac.node_modify_object s h m _ (fun nn => rfl)
      rcases hrd : s.reader x with _ | o <;> rw [hrd] at hget <;>
        dsimp only [] at hget
      · simp only [Option.some.injEq, Prod.mk.injEq] at hget
        rw [← hget.2, hmod n, ho2]
        rfl
      · rcases hsob : Stac.setObject
            { s.modifyNode h (fun nn => { nn with href := none }) with
              readLog := s.readLog ++ [x] } h o (some x) with _ | s2 <;>
          rw [hsob] at hget <;> dsimp only [] at hget
        · exact Option.noConfusion hget
        · rcases hoo : (s2.node h).object with _ | oo <;> rw [hoo] at hget <;>
            dsimp only [] at hget
          · exact Option.noConfusion hget
          · simp only [Option.some.injEq, Prod.mk.injEq] at hget
            rw [← hget.2]
            have hb : h < s.nodes.length := Stac.node_href_some_bound s h x hx
            rw [Stac.setObject_node_object _ s2 h o (some x) hsob
              (by rw [Stac.modify_nodes_length]; exact hb) n]
            by_cases nh : n = h
            · simp [nh]
            · rw [if_neg nh, hmod n, ho2]
              rfl

/-- C3.  For every node, a successful get performs an underlying read only
when the node's document is absent (a present document is returned with the
store — and its read log — unchanged); calling get twice on the same handle
performs exactly one underlying read, the second call returning the cached
document with the store unchanged; and a get never clears any node's
document (resolution is monotonic: only explicit removal/extraction clears
it). -/
theorem claim_c3_get_caching (s : Stac) (h : Handle) :
    (∀ o, (s.node h).object = some o → s.get h = some (.ok o, s)) ∧
    (∀ o s1, s.get h = some (.ok o, s1) →
      s1.get h = some (.ok o, s1) ∧
      ((s.node h).object.isSome → s1 = s) ∧
      ((s.node h).object = none →
        ∃ x, (s.node h).href = some x ∧ s1.readLog = s.readLog ++ [x]) ∧
      (∀ n o2, (s.node n).object = some o2 → (s1.node n).object.isSome)) := by
  refine ⟨fun o ho => Stac.get_of_some s h o ho, fun o s1 hget => ⟨?_, ?_, ?_, ?_⟩⟩
  · exact Stac.get_of_some s1 h o (Stac.get_ok_object s s1 h o hget)
  · intro hs
    rcases ho : (s.node h).object with _ | o2
    · rw [ho] at hs
      exact absurd hs (by simp)
    · rw [Stac.get_of_some s h o2 ho] at hget
      simp only [Option.some.injEq, Prod.mk.injEq] at hget
      rw [hget.2]
  · intro ho
    rcases hx : (s.node h).href with _ | x
    · rw [Stac.get, Stac.ensureResolved_unresolvable s h ho hx] at hget
      dsimp only [] at hget
      simp only [Option.some.injEq, Prod.mk.injEq] at hget
      exact absurd hget.1 (by simp)
    · exact ⟨x, rfl, Stac.get_readLog_of_none s s1 h x (.ok o) ho hx hget⟩
  · exact fun n o2 ho2 => Stac.get_object_mono s s1 h (.ok o) hget n o2 ho2

/-- Witness for C3: the second get of handle 1 in `c6Store` returns the
cached document with the store unchanged, the first get having read
c1.json exactly once. -/
theorem claim_c3_get_caching_witness :
    c6Store.1.get 1 = some (.ok { kind := .item, id := "c1" }, c3S1) ∧
    (c3S1.get 1 = some (.ok { kind := .item, id := "c1" }, c3S1) ∧
      ((c6Store.1.node 1).object.isSome → c3S1 = c6Store.1) ∧
      ((c6Store.1.node 1).object = none →
        ∃ x, (c6Store.1.node 1).href = some x ∧
          c3S1.readLog = c6Store.1.readLog ++ [x]) ∧
      (∀ n o2, (c6Store.1.node n).object = some o2 →
        (c3S1.node n).object.isSome)) :=
  ⟨rfl, (claim_c3_get_caching c6Store.1 1).2 { kind := .item, id := "c1" } c3S1 rfl⟩

/-- C5.  Under the Rebase strategy, the root node's new location is the
configured new root joined with the root's original file name; every non-root
node's new location is its existing location rebased — its path suffix
relative to the old root's directory reattached under the new configured
root; and next_href fails with MissingHref for any node (root or not) that
lacks a pre-existing location (or, for a non-root node, when the root lacks
one). -/
theorem claim_c5_rebase_strategy (R : String) (s : Stac) (h : Handle) :
    (h = s.root → ∀ f, s.href h = some f →
      stratNextHref .rebase R s h
        = some (.ok (Href.join R (Href.fileName f)), s)) ∧
    (s.href h = none →
      stratNextHref .rebase R s h = some (.error .missingHref, s)) ∧
    (h ≠ s.root → ∀ x, s.href h = some x → s.href s.root = none →
      stratNextHref .rebase R s h = some (.error .missingHref, s)) ∧
    (h ≠ s.root → ∀ x r2, s.href h = some x → s.href s.root = some r2 →
      stratNextHref .rebase R s h = some (Href.rebase x r2 R, s)) ∧
    (∀ x r2, Href.segsLe (Href.dirSegs r2) (Href.segs x) = true →
      Href.rebase x r2 R
        = .ok (Href.joinSegs
            (Href.rootDirSegs R ++ (Href.segs x).drop (Href.dirSegs r2).length))) := by
  refine ⟨?_, ?_, ?_, ?_, ?_⟩
  · intro hr f hf
    subst hr
    unfold stratNextHref nextHrefRebase
    dsimp only []
    rw [if_pos rfl, hf]
  · intro hf
    unfold stratNextHref nextHrefRebase
    dsimp only []
    by_cases hr : h = s.root
    · rw [if_pos hr, hf]
    · rw [if_neg hr, hf]
  · intro hr x hx h0
    unfold stratNextHref nextHrefRebase
    dsimp only []
    rw [if_neg hr, hx, h0]
  · intro hr x r2 hx h0
    unfold stratNextHref nextHrefRebase
    dsimp only []
    rw [if_neg hr, hx, h0]
    dsimp only []
    rcases Href.rebase x r2 R with y | e <;> rfl
  · intro x r2 hle
    unfold Href.rebase
    simp [hle]

/-- Witness for C5: the rebase scenario of spec §8 — root becomes
the/new/root/catalog.json, the child keeps its suffix under the new root. -/
theorem claim_c5_rebase_strategy_witness :
    c5Store.href 0 = some "old/path/catalog.json" ∧
    (stratNextHref .rebase "the/new/root/" c5Store 0
      = some (.ok (Href.join "the/new/root/"
          (Href.fileName "old/path/catalog.json")), c5Store)) ∧
    Href.join "the/new/root/" (Href.fileName "old/path/catalog.json")
      = "the/new/root/catalog.json" ∧
    (1 : Handle) ≠ c5Store.root ∧
    c5Store.href 1 = some "old/path/many/sub/dirs/weird-item-name.json" ∧
    (stratNextHref .rebase "the/new/root/" c5Store 1
      = some (Href.rebase "old/path/many/sub/dirs/weird-item-name.json"
          "old/path/catalog.json" "the/new/root/", c5Store)) ∧
    Href.rebase "old/path/many/sub/dirs/weird-item-name.json"
        "old/path/catalog.json" "the/new/root/"
      = .ok "the/new/root/many/sub/dirs/weird-item-name.json" :=
  ⟨rfl,
    (claim_c5_rebase_strategy "the/new/root/" c5Store 0).1 rfl
      "old/path/catalog.json" rfl,
    rfl, by decide, rfl,
    (claim_c5_rebase_strategy "the/new/root/" c5Store 1).2.2.2.1 (by decide)
      "old/path/many/sub/dirs/weird-item-name.json" "old/path/catalog.json"
      rfl rfl,
    rfl⟩

theorem setInsert_mem (l : List Handle) (x : Handle) : x ∈ setInsert l x := by
  unfold setInsert
  split
  · next hx => exact hx
  · simp

theorem swapRemove_not_mem (l : List Handle) (c : Handle) (hnd : l.Nodup) :
    c ∉ swapRemove l c := by
  unfold swapRemove
  rcases hidx : l.findIdx? (· = c) with _ | i
  · rw [List.findIdx?_eq_none_iff] at hidx
    intro hmem
    have := hidx c hmem
    simp at this
  · rcases hlast : l.getLast? with _ | last
    · rw [List.getLast?_eq_none_iff] at hlast
      subst hlast
      simp
    · obtain ⟨hi, hfi⟩ := List.findIdx?_eq_some_iff_findIdx_eq.mp hidx
      have hlc : l.get ⟨i, hi⟩ = c := by
        have hw : List.findIdx (· = c) l < l.length := by
          rw [hfi]
          exact hi
        have := @List.findIdx_getElem _ (· = c) l hw
        simp only [decide_eq_true_eq] at this
        have h3 : l[i]? = some c := by
          rw [← hfi, List.getElem?_eq_getElem hw]
          exact congrArg some this
        rw [List.getElem?_eq_getElem hi] at h3
        exact Option.some.inj h3
      have hlastelem : ∃ hh : l.length - 1 < l.length, l[l.length - 1] = last := by
        rcases l with _ | ⟨a, as⟩
        · cases hlast
        · refine ⟨by simp, ?_⟩
          rw [List.getLast?_eq_getElem?] at hlast
          simpa using hlast
      obtain ⟨hlen1, hlaste⟩ := hlastelem
      intro hmem
      rw [List.mem_iff_getElem] at hmem
      obtain ⟨j, hj, hje⟩ := hmem
      rw [List.getElem_dropLast] at hje
      have hjlen : j < l.length - 1 := by
        simpa using hj
      have hjset : j < (l.set i last).length := by
        simp
        omega
      by_cases ji : j = i
      · subst ji
        rw [List.getElem_set_self hjset] at hje
        subst hje
        have : l.length - 1 = j := (hnd.getElem_inj_iff).mp (hlaste.trans hlc.symm)
        omega
      · rw [List.getElem_set_ne (fun e => ji e.symm) hjset] at hje
        have : j = i := (hnd.getElem_inj_iff).mp (hje.trans hlc.symm)
        exact ji this

theorem Stac.connect_node_parent_child (s s' : Stac) (p c : Handle)
    (hc : s.connect p c = some s') (hb : c < s.nodes.length) :
    (s'.node c).parent = some p := by
  rcases Stac.connect_inv s s' p c hc with ⟨old, _, _, he⟩ | ⟨_, he⟩ <;> subst he
  · rw [Stac.node_modify_parent _ p c
      (fun n => { n with children := setInsert n.children c }) (fun n => rfl)]
    rw [Stac.node_modify_self _ c _
      (by rw [Stac.modify_nodes_length]; exact hb)]
  · rw [Stac.node_modify_parent _ p c
      (fun n => { n with children := setInsert n.children c }) (fun n => rfl)]
    rw [Stac.node_modify_self _ c _ hb]

theorem Stac.connect_child_mem (s s' : Stac) (p c : Handle)
    (hc : s.connect p c = some s') (hb : p < s.nodes.length) :
    c ∈ (s'.node p).children := by
  rcases Stac.connect_inv s s' p c hc with ⟨old, _, _, he⟩ | ⟨_, he⟩ <;> subst he
  · rw [Stac.node_modify_self _ p _
      (by rw [Stac.modify_nodes_length, Stac.modify_nodes_length]; exact hb)]
    exact setInsert_mem _ c
  · rw [Stac.node_modify_self _ p _
      (by rw [Stac.modify_nodes_length]; exact hb)]
    exact setInsert_mem _ c

theorem Stac.connect_old_detached (s s' : Stac) (p c old : Handle)
    (hc : s.connect p c = some s') (hpar : (s.node c).parent = some old)
    (hop : old ≠ p) (hnd : (s.node old).children.Nodup) :
    c ∉ (s'.node old).children := by
  rcases Stac.connect_inv s s' p c hc with ⟨old2, hpar2, hmem2, he⟩ | ⟨hpar2, he⟩
  · have ho : old2 = old := by
      rw [hpar] at hpar2
      injection hpar2 with e
      exact e.symm
    subst ho
    subst he
    have hbold : old2 < s.nodes.length := by
      by_contra hb
      rw [Stac.node_oob s old2 (Nat.le_of_not_lt hb)] at hmem2
      simp at hmem2
    rw [Stac.node_modify_ne _ p old2 _ hop]
    rw [Stac.node_modify_children _ c old2
      (fun n => { n with parent := some p }) (fun n => rfl)]
    rw [Stac.node_modify_self _ old2 _ hbold]
    exact swapRemove_not_mem _ c hnd
  · rw [hpar] at hpar2
    exact Option.noConfusion hpar2

/-- C9.  connect performs no cycle or root-protection check: for any in-range
handle h, connect(h, h) makes h simultaneously its own parent and its own
child, and connect(x, root) gives the arena's root node a parent — so the
rooted-tree invariant can be broken through the public interface; connect
only guarantees that the child is first detached from its previous parent
(when that parent is a different node with a duplicate-free child set) and
that parent.children and child.parent are updated together. -/
theorem claim_c9_connect_unchecked (s : Stac) :
    (∀ h s', h < s.nodes.length → s.connect h h = some s' →
      (s'.node h).parent = some h ∧ h ∈ (s'.node h).children) ∧
    (∀ x s', s.root < s.nodes.length → s.connect x s.root = some s' →
      (s'.node s.root).parent = some x) ∧
    (∀ p c s', c < s.nodes.length → p < s.nodes.length →
      s.connect p c = some s' →
      (s'.node c).parent = some p ∧ c ∈ (s'.node p).children) ∧
    (∀ p c s' old, s.connect p c = some s' → (s.node c).parent = some old →
      old ≠ p → (s.node old).children.Nodup → c ∉ (s'.node old).children) := by
  refine ⟨?_, ?_, ?_, ?_⟩
  · intro h s' hb hc
    exact ⟨Stac.connect_node_parent_child s s' h h hc hb,
      Stac.connect_child_mem s s' h h hc hb⟩
  · intro x s' hb hc
    exact Stac.connect_node_parent_child s s' x s.root hc hb
  · intro p c s' hbc hbp hc
    exact ⟨Stac.connect_node_parent_child s s' p c hc hbc,
      Stac.connect_child_mem s s' p c hc hbp⟩
  · intro p c s' old hc hpar hop hnd
    exact Stac.connect_old_detached s s' p c old hc hpar hop hnd

/-- Witness for C9: in the concrete C2 scenario store, connect(2,2) makes the
item its own parent and child, connect(1, root) gives the root a parent, and
the reconnect of the item under the root detaches it from the collection. -/
theorem claim_c9_connect_unchecked_witness :
    (2 : Handle) < c2Step2.1.nodes.length ∧
    c2Step2.1.connect 2 2 = some c9Self ∧
    ((c9Self.node 2).parent = some 2 ∧ 2 ∈ (c9Self.node 2).children) ∧
    c2Step2.1.root < c2Step2.1.nodes.length ∧
    c2Step2.1.connect 1 c2Step2.1.root = some c9RootChild ∧
    (c9RootChild.node c2Step2.1.root).parent = some 1 :=
  ⟨by decide, rfl,
    (claim_c9_connect_unchecked c2Step2.1).1 2 c9Self (by decide) rfl,
    by decide, rfl,
    (claim_c9_connect_unchecked c2Step2.1).2.1 1 c9RootChild (by decide) rfl⟩

theorem Stac.add_of_known (s : Stac) (obj : Object) (x : String) (h : Handle)
    (r : Handle × Stac) (hlu : hrefsLookup s.hrefs x = some h)
    (hadd : s.add obj (some x) = some r) :
    r.1 = h ∧ s.setObject h obj (some x) = some r.2 := by
  unfold Stac.add at hadd
  rw [show (some x).bind (fun y => hrefsLookup s.hrefs y) = some h from hlu] at hadd
  dsimp only [] at hadd
  rcases hso : s.setObject h obj (some x) with _ | s2 <;> rw [hso] at hadd
  · exact Option.noConfusion hadd
  · dsimp only [] at hadd
    simp only [Option.some.injEq] at hadd
    rw [← hadd]
    exact ⟨rfl, rfl⟩

/-- C10.  An entry of the location-to-handle index is deleted only by remove:
set_href(h, new) inserts the new location but leaves any previous location of
h still mapping to h in the index, and take_href(h) removes the location from
the node while leaving its index entry in place — consequently, a later add
carrying such a stale location reuses handle h instead of allocating a new
node. -/
theorem claim_c10_stale_index (s : Stac) (h : Handle) :
    (∀ old new, hrefsLookup s.hrefs old = some h → old ≠ new →
      hrefsLookup (s.setHref h new).hrefs old = some h ∧
      hrefsLookup (s.setHref h new).hrefs new = some h) ∧
    (s.takeHref h).2.hrefs = s.hrefs ∧
    (∀ obj x r, hrefsLookup s.hrefs x = some h → s.add obj (some x) = some r →
      r.1 = h) := by
  refine ⟨?_, rfl, ?_⟩
  · intro old new hlu hne
    constructor
    · show hrefsLookup (hrefsInsert s.hrefs new h) old = some h
      rw [hrefsLookup_insert_ne s.hrefs new old h hne]
      exact hlu
    · exact hrefsLookup_insert_self s.hrefs new h
  · intro obj x r hlu hadd
    exact (Stac.add_of_known s obj x h r hlu hadd).1

/-- Witness for C10: in the concrete `c10Store`, set_href keeps the old
index entry, take_href keeps the index intact, and a re-add at the stale
location a.json reuses handle 0. -/
theorem claim_c10_stale_index_witness :
    hrefsLookup c10Store.hrefs "a.json" = some 0 ∧
    ("a.json" : String) ≠ "b.json" ∧
    (hrefsLookup (c10Store.setHref 0 "b.json").hrefs "a.json" = some 0 ∧
      hrefsLookup (c10Store.setHref 0 "b.json").hrefs "b.json" = some 0) ∧
    (c10Store.takeHref 0).2.hrefs = c10Store.hrefs ∧
    (c10Taken.node 0).href = none ∧
    hrefsLookup c10Taken.hrefs "a.json" = some 0 ∧
    (∀ r, c10Taken.add { kind := .catalog, id := "other" } (some "a.json")
        = some r → r.1 = 0) :=
  ⟨rfl, by decide, (claim_c10_stale_index c10Store 0).1 "a.json" "b.json" rfl
      (by decide),
    (claim_c10_stale_index c10Store 0).2.1, rfl, rfl,
    fun r => (claim_c10_stale_index c10Taken 0).2.2
      { kind := .catalog, id := "other" } "a.json" r rfl⟩

theorem Stac.setHref_node_href_self (s : Stac) (h : Handle) (x : String)
    (hb : h < s.nodes.length) : ((s.setHref h x).node h).href = some x := by
  unfold Stac.setHref
  rw [Stac.node_modify_self
    (Stac.mk s.reader s.nodes s.freeNodes (hrefsInsert s.hrefs x h) s.readLog)
    h _ hb]

theorem Stac.linkScan_id_of_plain (s : Stac) (h : Handle)
    (hrf : Option String) (ls : List Link)
    (hpl : ∀ l ∈ ls, l.isStructural = false) :
    s.linkScan h hrf ls = some s := by
  induction ls with
  | nil => rfl
  | cons l ls ih =>
    have hl : l.isStructural = false := hpl l (by simp)
    simp only [Stac.linkScan, hl]
    exact ih (fun l2 h2 => hpl l2 (by simp [h2]))

theorem hrefsInsert_key_count (m : List (String × Handle)) (k : String)
    (v : Handle) :
    ((hrefsInsert m k v).filter (fun e => e.1 = k)).length = 1 := by
  unfold hrefsInsert
  rw [List.filter_cons]
  rw [if_pos (by simp)]
  rw [List.filter_filter]
  have : (m.filter fun e => decide (e.1 = k) && decide ¬e.1 = k) = [] := by
    rw [List.filter_eq_nil_iff]
    intro e hm
    by_cases ek : e.1 = k <;> simp [ek]
  rw [this]
  rfl

theorem Stac.add_of_fresh (s : Stac) (obj : Object) (hrf : Option String)
    (r : Handle × Stac)
    (hlu : hrf.bind (fun x => hrefsLookup s.hrefs x) = none)
    (hadd : s.add obj hrf = some r) : r.1 = (s.addNode).1 := by
  unfold Stac.add at hadd
  rw [hlu] at hadd
  dsimp only [] at hadd
  rcases hso : (s.addNode).2.setObject (s.addNode).1 obj hrf with _ | s2 <;>
    rw [hso] at hadd
  · exact Option.noConfusion hadd
  · dsimp only [] at hadd
    simp only [Option.some.injEq] at hadd
    rw [← hadd]

/-- C7 (amended).  For every call to add whose input carries a location
already present in the location-to-handle index (at an in-range handle), the
existing handle for that location is returned and its slot updated with the
given document and location, and the index keeps exactly one entry for that
location, still mapping to that handle; when the document carries no
structural links, no new node is allocated (a document's structural links may
still allocate placeholder nodes for their targets).  For every call whose
input carries no location or an unknown one, the handle returned is the fresh
or free-list-recycled handle of add_node. -/
theorem claim_c7_add_reuse (s : Stac) (obj : Object) :
    (∀ x h r, hrefsLookup s.hrefs x = some h → h < s.nodes.length →
      s.add obj (some x) = some r →
      r.1 = h ∧
      (r.2.node h).object = some obj ∧
      (r.2.node h).href = some x ∧
      hrefsLookup r.2.hrefs x = some h ∧
      (r.2.hrefs.filter (fun e => e.1 = x)).length = 1 ∧
      (obj.links.filter (fun l => l.isStructural) = [] →
        r.2.nodes.length = s.nodes.length ∧ r.2.freeNodes = s.freeNodes)) ∧
    (∀ x r, hrefsLookup s.hrefs x = none → s.add obj (some x) = some r →
      r.1 = (s.addNode).1) ∧
    (∀ r, s.add obj none = some r → r.1 = (s.addNode).1) := by
  refine ⟨?_, ?_, ?_⟩
  · intro x h r hlu hb hadd
    obtain ⟨hr1, hso⟩ := Stac.add_of_known s obj x h r hlu hadd
    rcases Stac.setObject_inv s r.2 h obj (some x) hso with ⟨s1, hscan, he⟩
    have hlen1 : s.nodes.length ≤ s1.nodes.length :=
      Stac.linkScan_length_le _ _ _ _ _ hscan
    refine ⟨hr1, ?_, ?_, ?_, ?_, ?_⟩
    · rw [Stac.setObject_node_object s r.2 h obj (some x) hso hb h]
      simp
    · rw [he]
      rw [Stac.node_modify_href _ h h
        (fun n => { n with object := some obj }) (fun n => rfl)]
      exact Stac.setHref_node_href_self s1 h x (Nat.lt_of_lt_of_le hb hlen1)
    · rw [he]
      show hrefsLookup (hrefsInsert s1.hrefs x h) x = some h
      exact hrefsLookup_insert_self s1.hrefs x h
    · rw [he]
      show ((hrefsInsert s1.hrefs x h).filter (fun e => e.1 = x)).length = 1
      exact hrefsInsert_key_count s1.hrefs x h
    · intro hplain
      have hid : s.linkScan h (some x) obj.links = some s := by
        refine Stac.linkScan_id_of_plain s h (some x) obj.links ?_
        intro l hl
        by_cases hs2 : l.isStructural
        · exact absurd (List.mem_filter.mpr ⟨hl, by simpa using hs2⟩)
            (by rw [hplain]; simp)
        · simpa using hs2
      have hs1 : s1 = s := by
        rw [hid] at hscan
        exact (Option.some.injEq _ _ ▸ hscan).symm
      subst hs1
      rw [he]
      constructor
      · rw [Stac.modify_nodes_length, Stac.setHref_nodes_length]
      · rw [Stac.modify_freeNodes, Stac.setHref_freeNodes]
  · intro x r hlu hadd
    exact Stac.add_of_fresh s obj (some x) r (by simpa using hlu) hadd
  · intro r hadd
    exact Stac.add_of_fresh s obj none r rfl hadd

/-- Counterexample for C7: re-adding at an already-indexed location does
return the existing handle, but when the document carries a structural link
to an unseen location a new placeholder node IS allocated — the arena grows
from 1 to 2 nodes, so "no new node is allocated" is false as stated. -/
theorem claim_c7_counterexample :
    hrefsLookup c7Store.hrefs "catalog.json" = some 0 ∧
    c7Store.add c7Doc (some "catalog.json") = some (0, c7After) ∧
    c7Store.nodes.length = 1 ∧
    c7After.nodes.length = 2 :=
  ⟨rfl, rfl, rfl, rfl⟩

/-- Witness for C7 (amended): re-adding a link-free document at the indexed
location catalog.json reuses handle 0, updates the slot, keeps a single index
entry and allocates nothing. -/
theorem claim_c7_add_reuse_witness :
    hrefsLookup c7Store.hrefs "catalog.json" = some 0 ∧
    (0 : Handle) < c7Store.nodes.length ∧
    c7Store.add { kind := .catalog, id := "plain" } (some "catalog.json")
      = some (0, c7PlainAfter) ∧
    ((0 : Handle) = 0 ∧
      (c7PlainAfter.node 0).object = some { kind := .catalog, id := "plain" } ∧
      (c7PlainAfter.node 0).href = some "catalog.json" ∧
      hrefsLookup c7PlainAfter.hrefs "catalog.json" = some 0 ∧
      (c7PlainAfter.hrefs.filter (fun e => e.1 = "catalog.json")).length = 1 ∧
      (({ kind := .catalog, id := "plain" } : Object).links.filter
          (fun l => l.isStructural) = [] →
        c7PlainAfter.nodes.length = c7Store.nodes.length ∧
        c7PlainAfter.freeNodes = c7Store.freeNodes)) :=
  ⟨rfl, by decide, rfl,
    (claim_c7_add_reuse c7Store { kind := .catalog, id := "plain" }).1
      "catalog.json" 0 (0, c7PlainAfter) rfl (by decide) rfl⟩

theorem Stac.addNode_length_nil (s : Stac) (hf : s.freeNodes = []) :
    (s.addNode).2.nodes.length = s.nodes.length + 1 := by
  unfold Stac.addNode
  rw [hf]
  simp

theorem Stac.add_of_fresh_eq (s : Stac) (obj : Object) (hrf : Option String)
    (r : Handle × Stac)
    (hlu : hrf.bind (fun x => hrefsLookup s.hrefs x) = none)
    (hadd : s.add obj hrf = some r) :
    r.1 = (s.addNode).1 ∧
    (s.addNode).2.setObject (s.addNode).1 obj hrf = some r.2 := by
  unfold Stac.add at hadd
  rw [hlu] at hadd
  dsimp only [] at hadd
  rcases hso : (s.addNode).2.setObject (s.addNode).1 obj hrf with _ | s2 <;>
    rw [hso] at hadd
  · exact Option.noConfusion hadd
  · dsimp only [] at hadd
    simp only [Option.some.injEq] at hadd
    rw [← hadd]
    exact ⟨rfl, rfl⟩

theorem Stac.setObject_node_href_self (s s' : Stac) (h : Handle) (obj : Object)
    (hrf : Option String) (hso : s.setObject h obj hrf = some s')
    (hb : h < s.nodes.length) : (s'.node h).href = hrf := by
  rcases Stac.setObject_inv s s' h obj hrf hso with ⟨s1, hscan, he⟩
  subst he
  have hlen1 : s.nodes.length ≤ s1.nodes.length :=
    Stac.linkScan_length_le _ _ _ _ _ hscan
  rcases hrf with _ | x
  · rw [Stac.node_modify_href _ h h
      (fun n => { n with object := some obj }) (fun n => rfl)]
    rw [Stac.node_modify_self _ h _ (Nat.lt_of_lt_of_le hb hlen1)]
  · rw [Stac.node_modify_href _ h h
      (fun n => { n with object := some obj }) (fun n => rfl)]
    exact Stac.setHref_node_href_self s1 h x (Nat.lt_of_lt_of_le hb hlen1)

theorem Stac.rooted_inv (rd : String → Option Object) (obj : Object)
    (hrf : Option String) (s0 : Stac) (h0 : Handle)
    (hr : Stac.rooted rd obj hrf = some (s0, h0)) :
    h0 = rootHandle ∧
    ({ reader := rd, nodes := [{}] } : Stac).setObject rootHandle obj hrf
      = some s0 := by
  unfold Stac.rooted at hr
  dsimp only [] at hr
  rcases hso : ({ reader := rd, nodes := [{}] } : Stac).setObject rootHandle
      obj hrf with _ | s1 <;> rw [hso] at hr
  · exact Option.noConfusion hr
  · dsimp only [] at hr
    simp only [Option.some.injEq, Prod.mk.injEq] at hr
    exact ⟨hr.2.symm, by rw [hr.1]⟩

theorem Stac.rooted_facts (rd : String → Option Object) (obj : Object)
    (hrf : Option String) (s0 : Stac) (h0 : Handle)
    (hr : Stac.rooted rd obj hrf = some (s0, h0)) :
    h0 = rootHandle ∧
    (s0.node rootHandle).object = some obj ∧
    (s0.node rootHandle).href = hrf ∧
    s0.freeNodes = [] ∧
    1 ≤ s0.nodes.length := by
  obtain ⟨hh0, hso⟩ := Stac.rooted_inv rd obj hrf s0 h0 hr
  have hb : rootHandle < ({ reader := rd, nodes := [{}] } : Stac).nodes.length := by
    show 0 < 1
    exact Nat.zero_lt_one
  refine ⟨hh0, ?_, ?_, ?_, ?_⟩
  · rw [Stac.setObject_node_object _ s0 rootHandle obj hrf hso hb rootHandle]
    simp
  · exact Stac.setObject_node_href_self _ s0 rootHandle obj hrf hso hb
  · exact Stac.setObject_freeNodes_nil _ s0 rootHandle obj hrf hso rfl
  · exact Nat.le_trans (by exact Nat.le_refl 1)
      (Stac.setObject_length_le _ s0 rootHandle obj hrf hso)

/-- C8.  When the store is created from an initial document carrying a root
link that resolves (against the document's own location, if any) to a
location different from that document's own location, the store first reads
the root location (failing with the reader's error if that read fails) and
roots itself there — the root slot holds the document read from the root
location — then re-attaches the original document as a non-root member,
returning a handle distinct from the root handle; otherwise the given
document/location becomes the root directly and the returned handle is the
root handle. -/
theorem claim_c8_create_follows_root_link (rd : String → Option Object)
    (obj : Object) (hrf : Option String) :
    (∀ l rh, obj.rootLink = some l →
      rh = (match hrf with | some b => Href.join b l.href | none => l.href) →
      ¬ hrf = some rh →
      (rd rh = none →
        Stac.newWithReader rd obj hrf = some (.error .readFailed)) ∧
      (∀ rootObj, rd rh = some rootObj →
        ∀ S H, Stac.newWithReader rd obj hrf = some (.ok (S, H)) →
          H ≠ rootHandle ∧
          (S.node rootHandle).object = some rootObj ∧
          (S.node H).object = some obj)) ∧
    ((obj.rootLink = none ∨
        ∃ l, obj.rootLink = some l ∧
          hrf = some (match hrf with | some b => Href.join b l.href | none => l.href)) →
      ∀ S H, Stac.newWithReader rd obj hrf = some (.ok (S, H)) →
        H = rootHandle ∧
        (S.node rootHandle).object = some obj ∧
        (S.node rootHandle).href = hrf) := by
  constructor
  · intro l rh hl hrheq hne
    constructor
    · intro hrd
      unfold Stac.newWithReader
      rw [hl]
      dsimp only []
      rw [← hrheq, if_neg hne, hrd]
    · intro rootObj hrd S H hnew
      unfold Stac.newWithReader at hnew
      rw [hl] at hnew
      dsimp only [] at hnew
      rw [← hrheq, if_neg hne, hrd] at hnew
      dsimp only [] at hnew
      rcases hroot : Stac.rooted rd rootObj (some rh) with _ | ⟨s0, h0⟩ <;>
        rw [hroot] at hnew
      · exact Option.noConfusion hnew
      · dsimp only [] at hnew
        rcases hadd : s0.add obj none with _ | ⟨h1, s1⟩ <;> rw [hadd] at hnew
        · exact Option.noConfusion hnew
        · dsimp only [] at hnew
          simp only [Option.some.injEq, Except.ok.injEq, Prod.mk.injEq] at hnew
          obtain ⟨hS, hH⟩ := hnew
          obtain ⟨hh0, hobj0, hhref0, hfree0, hlen0⟩ :=
            Stac.rooted_facts rd rootObj (some rh) s0 h0 hroot
          obtain ⟨hh1, hsetadd⟩ :=
            Stac.add_of_fresh_eq s0 obj none (h1, s1) rfl hadd
          have h1eq : h1 = s0.nodes.length := by
            have := Stac.addNode_fst_length s0 hfree0
            rw [← this]
            exact hh1
          have h1ne : h1 ≠ rootHandle := by
            rw [h1eq]
            unfold rootHandle
            intro e
            rw [e] at hlen0
            exact absurd hlen0 (by decide)
          have hbound : (s0.addNode).1 < (s0.addNode).2.nodes.length := by
            rw [Stac.addNode_fst_length s0 hfree0,
              Stac.addNode_length_nil s0 hfree0]
            exact Nat.lt_succ_self _
          refine ⟨by rw [← hH]; exact h1ne, ?_, ?_⟩
          · rw [← hS]
            rw [Stac.setObject_node_object _ s1 _ obj none hsetadd hbound
              rootHandle]
            rw [if_neg (by
              rw [Stac.addNode_fst_length s0 hfree0]
              unfold rootHandle
              intro e
              rw [← e] at hlen0
              exact absurd hlen0 (by decide))]
            rw [Stac.addNode_node_object s0 rootHandle]
            exact hobj0
          · rw [← hS, ← hH]
            rw [Stac.setObject_node_object _ s1 _ obj none hsetadd hbound h1]
            rw [if_pos (by rw [h1eq, Stac.addNode_fst_length s0 hfree0])]
  · intro hcase S H hnew
    unfold Stac.newWithReader at hnew
    have hfin : Stac.rooted rd obj hrf = some (S, H) →
        H = rootHandle ∧ (S.node rootHandle).object = some obj ∧
        (S.node rootHandle).href = hrf := by
      intro hroot
      obtain ⟨hh0, hobj0, hhref0, _, _⟩ :=
        Stac.rooted_facts rd obj hrf S H hroot
      exact ⟨hh0, hobj0, hhref0⟩
    rcases hcase with hnone | ⟨l, hl, heq⟩
    · rw [hnone] at hnew
      dsimp only [] at hnew
      rcases hroot : Stac.rooted rd obj hrf with _ | ⟨s0, h0⟩ <;>
        rw [hroot] at hnew
      · exact Option.noConfusion hnew
      · dsimp only [] at hnew
        simp only [Option.some.injEq, Except.ok.injEq, Prod.mk.injEq] at hnew
        obtain ⟨hS, hH⟩ := hnew
        rw [hS, hH] at hroot
        exact hfin hroot
    · rw [hl] at hnew
      dsimp only [] at hnew
      rw [if_pos heq] at hnew
      rcases hroot : Stac.rooted rd obj hrf with _ | ⟨s0, h0⟩ <;>
        rw [hroot] at hnew
      · exact Option.noConfusion hnew
      · dsimp only [] at hnew
        simp only [Option.some.injEq, Except.ok.injEq, Prod.mk.injEq] at hnew
        obtain ⟨hS, hH⟩ := hnew
        rw [hS, hH] at hroot
        exact hfin hroot

/-- Witness for C8: creating a store from `c8Obj` roots it at root.json
(reading the-root there) and re-attaches the document at a non-root handle,
while a root-link-free document becomes the root directly. -/
theorem claim_c8_create_follows_root_link_witness :
    c8Obj.rootLink = some (Link.root "root.json") ∧
    ¬ (some "child.json" : Option String) = some "root.json" ∧
    c8Reader "root.json" = some { kind := .catalog, id := "the-root" } ∧
    Stac.newWithReader c8Reader c8Obj (some "child.json")
      = some (.ok (c8Pair.1, c8Pair.2)) ∧
    (c8Pair.2 ≠ rootHandle ∧
      (c8Pair.1.node rootHandle).object = some { kind := .catalog, id := "the-root" } ∧
      (c8Pair.1.node c8Pair.2).object = some c8Obj) ∧
    Stac.new { kind := .catalog, id := "solo" } (some "s.json")
      = some (.ok (c8Pair2.1, c8Pair2.2)) ∧
    (c8Pair2.2 = rootHandle ∧
      (c8Pair2.1.node rootHandle).object = some { kind := .catalog, id := "solo" } ∧
      (c8Pair2.1.node rootHandle).href = some "s.json") :=
  ⟨rfl, by decide, rfl, rfl,
    ((claim_c8_create_follows_root_link c8Reader c8Obj (some "child.json")).1
      (Link.root "root.json") "root.json" rfl rfl (by decide)).2
      { kind := .catalog, id := "the-root" } rfl c8Pair.1 c8Pair.2 rfl,
    rfl,
    (claim_c8_create_follows_root_link noReader
      { kind := .catalog, id := "solo" } (some "s.json")).2
      (Or.inl rfl) c8Pair2.1 c8Pair2.2 rfl⟩

/-- Counterexample for C1: layout completes successfully, but resolving c1
during the root's visit re-parents it (its parent link points at the root's
own location, so connect moves it to the end of the root's child set) after
the root's child links were computed from the snapshot — the root's child
links come out in the order c1, c2 while its children end up ordered c2, c1,
so the one-to-one order-preserving correspondence fails at the root, which is
trivially reachable from itself. -/
theorem claim_c1_counterexample :
    c1Store.children 0 = [1, 2] ∧
    runLayout .bestPractices "stac/root" 10 c1Store = some (.ok (), c1Final) ∧
    c1Final.children 0 = [2, 1] ∧
    childLinkHrefs (objAt c1Final 0)
      = ["./c1/catalog.json", "./c2/catalog.json"] ∧
    (c1Final.children 0).map (fun c =>
      Href.makeRelative ((c1Final.nextHref 0).getD "")
        ((c1Final.nextHref c).getD ""))
      = ["./c2/catalog.json", "./c1/catalog.json"] ∧
    ¬ childLinksMatch c1Final 0 := by
  refine ⟨rfl, rfl, rfl, rfl, rfl, ?_⟩
  intro hcm
  unfold childLinksMatch at hcm
  exact absurd hcm (by decide)

theorem link_not_root_of_plain (l : Link) (hp : l.isStructural = false) :
    l.isRoot = false := by
  unfold Link.isStructural at hp
  rcases Bool.or_eq_false_iff.mp hp with ⟨h1, _⟩
  rcases Bool.or_eq_false_iff.mp h1 with ⟨h2, _⟩
  rcases Bool.or_eq_false_iff.mp h2 with ⟨h3, _⟩
  exact h3

theorem link_not_parent_of_plain (l : Link) (hp : l.isStructural = false) :
    l.isParent = false := by
  unfold Link.isStructural at hp
  rcases Bool.or_eq_false_iff.mp hp with ⟨h1, _⟩
  rcases Bool.or_eq_false_iff.mp h1 with ⟨h2, _⟩
  rcases Bool.or_eq_false_iff.mp h2 with ⟨_, h4⟩
  exact h4

theorem link_not_child_of_plain (l : Link) (hp : l.isStructural = false) :
    l.isChild = false := by
  unfold Link.isStructural at hp
  rcases Bool.or_eq_false_iff.mp hp with ⟨h1, _⟩
  rcases Bool.or_eq_false_iff.mp h1 with ⟨_, h4⟩
  exact h4

theorem strip_plain (ls : List Link) :
    ∀ l ∈ ls.filter (fun l => ¬ l.isStructural), l.isStructural = false := by
  intro l hl
  have := List.of_mem_filter hl
  simpa using this

theorem createLink_eval (s : Stac) (a b : Handle) (rel : String)
    (na nb : String) (ob : Object)
    (ha : s.nextHref a = some na) (hb : s.nextHref b = some nb)
    (hob : (s.node b).object = some ob) :
    createLink s a b rel
      = some (.ok ⟨Href.makeRelative na nb, rel, ob.title⟩, s) := by
  unfold createLink
  rw [ha, hb]
  unfold lbind
  rw [Stac.get_of_some s b ob hob]

theorem addLink_eval (s : Stac) (h : Handle) (o : Object) (l : Link)
    (ho : (s.node h).object = some o) :
    s.addLink h l
      = some (.ok (), s.modifyNode h fun n =>
          { n with object := some (o.addLink l) }) := by
  unfold Stac.addLink
  rw [Stac.ensureResolved_of_some s h o ho]
  dsimp only []
  rw [ho]

theorem removeStructural_eval (s : Stac) (h : Handle) (o : Object)
    (ho : (s.node h).object = some o) :
    s.removeStructuralLinks h
      = some (.ok (), s.modifyNode h fun n => { n with object := some (stripObj o) }) := by
  unfold Stac.removeStructuralLinks
  rw [Stac.ensureResolved_of_some s h o ho]
  dsimp only []
  rw [ho]
  unfold stripObj
  rfl

theorem stratNextHref_pure (strat : Strategy) (r : String) (s : Stac)
    (h : Handle) (out : Except Error String × Stac)
    (ho : (s.node h).object.isSome)
    (hs : stratNextHref strat r s h = some out) : out.2 = s := by
  rcases hobj : (s.node h).object with _ | o
  · rw [hobj] at ho
    exact absurd ho (by simp)
  · cases strat
    · unfold stratNextHref at hs
      dsimp only [] at hs
      unfold nextHrefBP at hs
      rcases hp : s.parent h with _ | p <;> rw [hp] at hs <;>
        dsimp only [] at hs
      · unfold nextHrefBPFinish at hs
        unfold lbind at hs
        rw [Stac.get_of_some s h o hobj] at hs
        dsimp only [] at hs
        injection hs with hs
        rw [← hs]
      · rcases hnp : s.nextHref p with _ | np <;> rw [hnp] at hs <;>
          dsimp only [] at hs
        · injection hs with hs
          rw [← hs]
        · unfold lbind at hs
          rw [Stac.get_of_some s h o hobj] at hs
          dsimp only [] at hs
          unfold nextHrefBPFinish at hs
          unfold lbind at hs
          rw [Stac.get_of_some s h o hobj] at hs
          dsimp only [] at hs
          injection hs with hs
          rw [← hs]
    · unfold stratNextHref at hs
      dsimp only [] at hs
      injection hs with hs
      rw [← hs]
      unfold nextHrefRebase
      split
      · split <;> rfl
      · split
        · rfl
        · split
          · rfl
          · split <;> rfl

theorem layoutSetNextHref_inv (strat : Strategy) (r : String) (s s1 : Stac)
    (h : Handle) (ho : (s.node h).object.isSome)
    (hs : layoutSetNextHref strat r s h = some (.ok (), s1)) :
    ∃ v, s1 = s.setNextHref h v := by
  unfold layoutSetNextHref at hs
  unfold lbind at hs
  rcases hm : stratNextHref strat r s h with _ | out <;> rw [hm] at hs
  · exact Option.noConfusion hs
  · rcases out with ⟨res, s2⟩
    have hpure : s2 = s := stratNextHref_pure strat r s h (res, s2) ho hm
    subst hpure
    rcases res with e | v
    · dsimp only [] at hs
      injection hs with hs
      injection hs with h1 h2
      exact Except.noConfusion h1
    · dsimp only [] at hs
      injection hs with hs
      injection hs with h1 h2
      exact ⟨v, h2.symm⟩

theorem lbind_ok {α β : Type} (a : α) (s : Stac) (f : α → Stac → LRes β) :
    lbind (some (.ok a, s)) f = f a s := rfl

theorem lbind_err {α β : Type} (e : Error) (s : Stac) (f : α → Stac → LRes β) :
    lbind (some (.error e, s)) f = some (.error e, s) := rfl

theorem lbind_none {α β : Type} (f : α → Stac → LRes β) :
    lbind (none : LRes α) f = none := rfl

theorem Stac.lt_of_object_some (s : Stac) (h : Handle) (o : Object)
    (ho : (s.node h).object = some o) : h < s.nodes.length := by
  by_contra hlt
  have : s.node h = {} := by
    unfold Stac.node
    exact List.getD_eq_default _ _ (Nat.le_of_not_lt hlt)
  rw [this] at ho
  exact Option.noConfusion ho

theorem stripObj_title (o : Object) : (stripObj o).title = o.title := rfl

theorem addLink_addLinks (o : Object) (l : Link) (ls : List Link) :
    (o.addLink l).addLinks ls = o.addLinks (l :: ls) := by
  unfold Object.addLink Object.addLinks
  simp

theorem flattenF_append (F G : List HTree) :
    flattenF (F ++ G) = flattenF F ++ flattenF G := by
  induction F with
  | nil => simp [flattenF]
  | cons t rest ih =>
    rcases t with ⟨x, ts⟩
    simp only [List.cons_append, flattenF, ih, List.append_assoc, List.cons.injEq,
      true_and]

theorem MatchesF_append (s : Stac) (F G : List HTree) :
    MatchesF s (F ++ G) ↔ MatchesF s F ∧ MatchesF s G := by
  induction F with
  | nil => simp [MatchesF]
  | cons t rest ih =>
    rcases t with ⟨x, ts⟩
    simp only [List.cons_append, MatchesF, ih]
    tauto

theorem MatchesF_ext (s s' : Stac)
    (hc : ∀ x, (s'.node x).children = (s.node x).children)
    (hp : ∀ x, (s'.node x).parent = (s.node x).parent) :
    ∀ F, MatchesF s F → MatchesF s' F
  | [] => fun _ => by unfold MatchesF; trivial
  | .mk x ts :: rest => fun hm => by
      unfold MatchesF at hm ⊢
      rcases hm with ⟨h1, h2, h3, h4⟩
      exact ⟨by rw [hc, h1], fun t ht => by rw [hp, h2 t ht],
        MatchesF_ext s s' hc hp ts h3, MatchesF_ext s s' hc hp rest h4⟩

theorem layoutChild_inv (strat : Strategy) (r : String) (h c : Handle)
    (s s' : Stac) (oc oh : Object) (vh : String)
    (hne : c ≠ h)
    (hoc : (s.node c).object = some oc)
    (hoh : (s.node h).object = some oh)
    (hvh : (s.node h).nextHref = some vh)
    (hs : layoutChild strat r h s c = some (.ok (), s')) :
    ∃ v, s' =
      (((s.modifyNode c fun n => { n with object := some (stripObj oc) }).setNextHref
          c v).modifyNode h fun n => { n with object := some (oh.addLink ⟨Href.makeRelative vh v, "child", oc.title⟩) }) := by
  have hcr : c < s.nodes.length := Stac.lt_of_object_some s c oc hoc
  have hhr : h < s.nodes.length := Stac.lt_of_object_some s h oh hoh
  unfold layoutChild at hs
  rw [removeStructural_eval s c oc hoc, lbind_ok] at hs
  set sA := s.modifyNode c fun n => { n with object := some (stripObj oc) } with hsA
  have hAc : (sA.node c).object = some (stripObj oc) := by
    rw [hsA, Stac.node_modify_self s c _ hcr]
  have hAh : sA.node h = s.node h := by
    rw [hsA, Stac.node_modify_ne s c h _ (fun e => hne e.symm)]
  rcases hset : layoutSetNextHref strat r sA c with _ | ⟨res, s2⟩
  · rw [hset, lbind_none] at hs
    exact Option.noConfusion hs
  · rw [hset] at hs
    rcases res with e | u
    · rw [lbind_err] at hs
      injection hs with hs
      injection hs with h1 _
      exact Except.noConfusion h1
    · rw [lbind_ok] at hs
      obtain ⟨v, hv⟩ := layoutSetNextHref_inv strat r sA s2 c
        (by rw [hAc]; rfl) hset
      subst hv
      have hvc : (sA.setNextHref c v).nextHref c = some v := by
        unfold Stac.nextHref Stac.setNextHref
        rw [Stac.node_modify_self _ c _ (by
          rw [hsA, Stac.modify_nodes_length]; exact hcr)]
      have hBh : (sA.setNextHref c v).node h = s.node h := by
        unfold Stac.setNextHref
        rw [Stac.node_modify_ne _ c h _ (fun e => hne e.symm), hAh]
      have hvhB : (sA.setNextHref c v).nextHref h = some vh := by
        unfold Stac.nextHref
        rw [hBh]
        exact hvh
      have hBc : ((sA.setNextHref c v).node c).object = some (stripObj oc) := by
        unfold Stac.setNextHref
        rw [Stac.node_modify_self _ c _ (by
          rw [hsA, Stac.modify_nodes_length]; exact hcr)]
        exact hAc
      rw [createLink_eval (sA.setNextHref c v) h c "child" vh v (stripObj oc)
        hvhB hvc hBc, lbind_ok] at hs
      rw [addLink_eval (sA.setNextHref c v) h oh _ (by rw [hBh]; exact hoh)] at hs
      injection hs with hs
      injection hs with h1 h2
      exact ⟨v, h2.symm⟩

theorem layoutChildren_inv (strat : Strategy) (r : String) (h : Handle) :
    ∀ (cs : List Handle) (s s' : Stac) (oh : Object) (vh : String),
    cs.Nodup → h ∉ cs →
    (∀ c ∈ cs, ((s.node c).object).isSome) →
    (s.node h).object = some oh →
    (s.node h).nextHref = some vh →
    layoutChildren strat r h s cs = some (.ok (), s') →
    (∀ m, m ≠ h → m ∉ cs → s'.node m = s.node m) ∧
    (∃ L : List Link,
      s'.node h = { s.node h with object := some (oh.addLinks L) } ∧
      (∀ l ∈ L, l.rel = "child") ∧
      L.map (fun l => l.href)
        = cs.map (fun c => Href.makeRelative vh (((s'.node c).nextHref).getD ""))) ∧
    (∀ c ∈ cs, ∃ oc, (s.node c).object = some oc ∧
      s'.node c = { s.node c with object := some (stripObj oc), nextHref := (s'.node c).nextHref } ∧
      ((s'.node c).nextHref).isSome) := by
  intro cs
  induction cs with
  | nil =>
    intro s s' oh vh _ _ _ hoh _ hs
    unfold layoutChildren at hs
    injection hs with hs
    injection hs with h1 h2
    subst h2
    refine ⟨fun m _ _ => rfl, ⟨[], ?_, by simp, by simp⟩, by simp⟩
    have : oh.addLinks [] = oh := by simp [Object.addLinks]
    rw [this, ← hoh]
  | cons c cs' ih =>
    intro s s' oh vh hnd hh hobj hoh hvh hs
    have hne : c ≠ h := fun e => hh (e ▸ List.mem_cons_self c cs')
    have hcncs : c ∉ cs' := (List.nodup_cons.mp hnd).1
    have hnd' : cs'.Nodup := (List.nodup_cons.mp hnd).2
    have hh' : h ∉ cs' := fun e => hh (List.mem_cons_of_mem c e)
    rcases hoco : (s.node c).object with _ | oc
    · have := hobj c (List.mem_cons_self c cs')
      rw [hoco] at this
      exact absurd this (by simp)
    unfold layoutChildren at hs
    rcases hstep : layoutChild strat r h s c with _ | ⟨res, s1⟩
    · rw [hstep, lbind_none] at hs
      exact Option.noConfusion hs
    · rw [hstep] at hs
      rcases res with e | u
      · rw [lbind_err] at hs
        injection hs with hs
        injection hs with h1 _
        exact Except.noConfusion h1
      · rw [lbind_ok] at hs
        obtain ⟨v, hv⟩ := layoutChild_inv strat r h c s s1 oc oh vh hne hoco hoh hvh hstep
        have hcr : c < s.nodes.length := Stac.lt_of_object_some s c oc hoco
        have hhr : h < s.nodes.length := Stac.lt_of_object_some s h oh hoh
        have hinner :
            ((s.modifyNode c fun n => { n with object := some (stripObj oc) }).setNextHref c v).node h
              = s.node h := by
          unfold Stac.setNextHref
          rw [Stac.node_modify_ne _ c h _ (fun e => hne e.symm),
            Stac.node_modify_ne _ c h _ (fun e => hne e.symm)]
        have hlen :
            ((s.modifyNode c fun n => { n with object := some (stripObj oc) }).setNextHref c v).nodes.length
              = s.nodes.length := by
          unfold Stac.setNextHref
          rw [Stac.modify_nodes_length, Stac.modify_nodes_length]
        have hn1h : s1.node h
            = { s.node h with object := some (oh.addLink ⟨Href.makeRelative vh v, "child", oc.title⟩) } := by
          rw [hv, Stac.node_modify_self _ h _ (by rw [hlen]; exact hhr), hinner]
        have hn1c : s1.node c
            = { s.node c with object := some (stripObj oc), nextHref := some v } := by
          rw [hv, Stac.node_modify_ne _ h c _ hne]
          unfold Stac.setNextHref
          rw [Stac.node_modify_self _ c _ (by rw [Stac.modify_nodes_length]; exact hcr),
            Stac.node_modify_self _ c _ hcr]
        have hn1m : ∀ m, m ≠ h → m ≠ c → s1.node m = s.node m := by
          intro m mh mc
          rw [hv, Stac.node_modify_ne _ h m _ mh]
          unfold Stac.setNextHref
          rw [Stac.node_modify_ne _ c m _ mc, Stac.node_modify_ne _ c m _ mc]
        obtain ⟨frameI, ⟨L', hLh, hLrel, hLmap⟩, hkidsI⟩ :=
          ih s1 s' (oh.addLink ⟨Href.makeRelative vh v, "child", oc.title⟩) vh
            hnd' hh'
            (by
              intro c' hc'
              have : s1.node c' = s.node c' :=
                hn1m c' (fun e => hh' (e ▸ hc')) (fun e => hcncs (e ▸ hc'))
              rw [this]
              exact hobj c' (List.mem_cons_of_mem c hc'))
            (by rw [hn1h])
            (by rw [hn1h]; exact hvh)
            hs
        have hsc : s'.node c = { s.node c with object := some (stripObj oc), nextHref := some v } := by
          rw [frameI c hne hcncs, hn1c]
        refine ⟨?_, ⟨⟨Href.makeRelative vh v, "child", oc.title⟩ :: L', ?_, ?_, ?_⟩, ?_⟩
        · intro m mh mcs
          rw [frameI m mh (fun e => mcs (List.mem_cons_of_mem c e)),
            hn1m m mh (fun e => mcs (e ▸ List.mem_cons_self c cs'))]
        · rw [hLh, hn1h, addLink_addLinks]
        · intro l hl
          rcases List.mem_cons.mp hl with e | e
          · rw [e]
          · exact hLrel l e
        · simp only [List.map_cons]
          rw [hLmap, hsc]
          rfl
        · intro c₀ hc₀
          rcases List.mem_cons.mp hc₀ with e | e
          · subst e
            refine ⟨oc, hoco, ?_, by rw [hsc]; rfl⟩
            rw [hsc]
          · obtain ⟨oc₀, g1, g2, g3⟩ := hkidsI c₀ e
            have hup : s1.node c₀ = s.node c₀ :=
              hn1m c₀ (fun x => hh' (x ▸ e)) (fun x => hcncs (x ▸ e))
            rw [hup] at g1 g2
            exact ⟨oc₀, g1, g2, g3⟩

theorem layoutOne_nonroot_inv (strat : Strategy) (r : String) (s s' : Stac)
    (h p : Handle) (oh op o0 : Object) (vh vp v0 : String)
    (hne0 : h ≠ 0)
    (hph : p ≠ h)
    (hoh : (s.node h).object = some oh)
    (hvh : (s.node h).nextHref = some vh)
    (hpar : (s.node h).parent = some p)
    (hop : (s.node p).object = some op)
    (hvp : (s.node p).nextHref = some vp)
    (ho0 : (s.node 0).object = some o0)
    (hv0 : (s.node 0).nextHref = some v0)
    (hnd : ((s.node h).children).Nodup)
    (hhc : h ∉ (s.node h).children)
    (hobj : ∀ c ∈ (s.node h).children, ((s.node c).object).isSome)
    (hs : layoutOne strat r s h = some (.ok (), s')) :
    ∃ (rootL parentL : Link) (L : List Link),
      (∀ m, m ≠ h → m ∉ (s.node h).children → s'.node m = s.node m) ∧
      s'.node h = { s.node h with object := some (((oh.addLink rootL).addLink parentL).addLinks L) } ∧
      rootL.rel = "root" ∧ parentL.rel = "parent" ∧
      (∀ l ∈ L, l.rel = "child") ∧
      L.map (fun l => l.href)
        = ((s.node h).children).map (fun c => Href.makeRelative vh (((s'.node c).nextHref).getD "")) ∧
      (∀ c ∈ (s.node h).children, ∃ oc, (s.node c).object = some oc ∧
        s'.node c = { s.node c with object := some (stripObj oc), nextHref := (s'.node c).nextHref } ∧
        ((s'.node c).nextHref).isSome) := by
  have hhr : h < s.nodes.length := Stac.lt_of_object_some s h oh hoh
  unfold layoutOne at hs
  try dsimp only [] at hs
  simp only [Stac.root, rootHandle] at hs
  rw [if_neg (fun e => hne0 e), lbind_ok] at hs
  try dsimp only [] at hs
  rw [createLink_eval s h 0 "root" vh v0 o0 hvh hv0 ho0, lbind_ok] at hs
  try dsimp only [] at hs
  rw [addLink_eval s h oh ⟨Href.makeRelative vh v0, "root", o0.title⟩ hoh,
    lbind_ok] at hs
  try dsimp only [] at hs
  set rootL : Link := ⟨Href.makeRelative vh v0, "root", o0.title⟩ with hrootL
  set sB := s.modifyNode h fun n => { n with object := some (oh.addLink rootL) } with hsB
  have hBh : sB.node h = { s.node h with object := some (oh.addLink rootL) } := by
    rw [hsB, Stac.node_modify_self s h _ hhr]
  have hBm : ∀ m, m ≠ h → sB.node m = s.node m := by
    intro m mh
    rw [hsB, Stac.node_modify_ne s h m _ mh]
  have hBlen : sB.nodes.length = s.nodes.length := by
    rw [hsB, Stac.modify_nodes_length]
  have hBpar : sB.parent h = some p := by
    unfold Stac.parent
    rw [hBh]
    exact hpar
  rw [hBpar] at hs
  try dsimp only [] at hs
  rw [createLink_eval sB h p "parent" vh vp op
    (by unfold Stac.nextHref; rw [hBh]; exact hvh)
    (by unfold Stac.nextHref; rw [hBm p hph]; exact hvp)
    (by rw [hBm p hph]; exact hop), lbind_ok] at hs
  try dsimp only [] at hs
  rw [addLink_eval sB h (oh.addLink rootL) ⟨Href.makeRelative vh vp, "parent", op.title⟩
    (by rw [hBh]), lbind_ok] at hs
  try dsimp only [] at hs
  set parentL : Link := ⟨Href.makeRelative vh vp, "parent", op.title⟩ with hparentL
  set sC := sB.modifyNode h fun n =>
    { n with object := some ((oh.addLink rootL).addLink parentL) } with hsC
  have hCh : sC.node h = { s.node h with object := some ((oh.addLink rootL).addLink parentL) } := by
    rw [hsC, Stac.node_modify_self sB h _ (by rw [hBlen]; exact hhr), hBh]
  have hCm : ∀ m, m ≠ h → sC.node m = s.node m := by
    intro m mh
    rw [hsC, Stac.node_modify_ne sB h m _ mh, hBm m mh]
  have hCkids : sC.children h = (s.node h).children := by
    unfold Stac.children
    rw [hCh]
  rw [hCkids] at hs
  obtain ⟨frameI, ⟨L, hLh, hLrel, hLmap⟩, hkidsI⟩ :=
    layoutChildren_inv strat r h ((s.node h).children) sC s'
      ((oh.addLink rootL).addLink parentL) vh hnd hhc
      (by
        intro c hc
        rw [hCm c (fun e => hhc (e ▸ hc))]
        exact hobj c hc)
      (by rw [hCh])
      (by rw [hCh]; exact hvh)
      hs
  refine ⟨rootL, parentL, L, ?_, ?_, rfl, rfl, hLrel, ?_, ?_⟩
  · intro m mh mcs
    rw [frameI m mh mcs, hCm m mh]
  · rw [hLh, hCh]
  · rw [hLmap]
  · intro c hc
    obtain ⟨oc, g1, g2, g3⟩ := hkidsI c hc
    have : sC.node c = s.node c := hCm c (fun e => hhc (e ▸ hc))
    rw [this] at g1 g2
    exact ⟨oc, g1, g2, g3⟩

theorem layoutOne_root_inv (strat : Strategy) (r : String) (s s' : Stac)
    (o0 : Object)
    (ho0 : (s.node 0).object = some o0)
    (hpar : (s.node 0).parent = none)
    (hnd : ((s.node 0).children).Nodup)
    (hhc : 0 ∉ (s.node 0).children)
    (hobj : ∀ c ∈ (s.node 0).children, ((s.node c).object).isSome)
    (hs : layoutOne strat r s 0 = some (.ok (), s')) :
    ∃ (v0 : String) (rootL : Link) (L : List Link),
      (∀ m, m ≠ 0 → m ∉ (s.node 0).children → s'.node m = s.node m) ∧
      s'.node 0 = { s.node 0 with object := some (((stripObj o0).addLink rootL).addLinks L), nextHref := some v0 } ∧
      rootL.rel = "root" ∧
      (∀ l ∈ L, l.rel = "child") ∧
      L.map (fun l => l.href)
        = ((s.node 0).children).map (fun c => Href.makeRelative v0 (((s'.node c).nextHref).getD "")) ∧
      (∀ c ∈ (s.node 0).children, ∃ oc, (s.node c).object = some oc ∧
        s'.node c = { s.node c with object := some (stripObj oc), nextHref := (s'.node c).nextHref } ∧
        ((s'.node c).nextHref).isSome) := by
  have h0r : (0 : Handle) < s.nodes.length := Stac.lt_of_object_some s 0 o0 ho0
  unfold layoutOne at hs
  try dsimp only [] at hs
  simp only [Stac.root, rootHandle] at hs
  simp only [if_true] at hs
  rw [removeStructural_eval s 0 o0 ho0, lbind_ok] at hs
  try dsimp only [] at hs
  set sA := s.modifyNode 0 fun n => { n with object := some (stripObj o0) } with hsA
  have hAself : sA.node 0 = { s.node 0 with object := some (stripObj o0) } := by
    rw [hsA, Stac.node_modify_self s 0 _ h0r]
  rcases hset : layoutSetNextHref strat r sA 0 with _ | ⟨res, s2⟩
  · rw [hset, lbind_none] at hs
    exact Option.noConfusion hs
  · rw [hset] at hs
    rcases res with e | u
    · rw [lbind_err] at hs
      injection hs with hs
      injection hs with h1 _
      exact Except.noConfusion h1
    · rw [lbind_ok] at hs
      obtain ⟨v0, hv⟩ := layoutSetNextHref_inv strat r sA s2 0
        (by rw [hAself]; rfl) hset
      subst hv
      set s1 := sA.setNextHref 0 v0 with hs1
      have hAlen : sA.nodes.length = s.nodes.length := by
        rw [hsA, Stac.modify_nodes_length]
      have h1self : s1.node 0 = { s.node 0 with object := some (stripObj o0), nextHref := some v0 } := by
        rw [hs1]
        unfold Stac.setNextHref
        rw [Stac.node_modify_self sA 0 _ (by rw [hAlen]; exact h0r), hAself]
      have h1m : ∀ m, m ≠ 0 → s1.node m = s.node m := by
        intro m mh
        rw [hs1]
        unfold Stac.setNextHref
        rw [Stac.node_modify_ne sA 0 m _ mh, hsA, Stac.node_modify_ne s 0 m _ mh]
      have h1len : s1.nodes.length = s.nodes.length := by
        rw [hs1]
        unfold Stac.setNextHref
        rw [Stac.modify_nodes_length, hAlen]
      rw [createLink_eval s1 0 0 "root" v0 v0 (stripObj o0)
        (by unfold Stac.nextHref; rw [h1self])
        (by unfold Stac.nextHref; rw [h1self])
        (by rw [h1self]), lbind_ok] at hs
      try dsimp only [] at hs
      rw [addLink_eval s1 0 (stripObj o0)
        ⟨Href.makeRelative v0 v0, "root", (stripObj o0).title⟩ (by rw [h1self]),
        lbind_ok] at hs
      try dsimp only [] at hs
      set rootL : Link := ⟨Href.makeRelative v0 v0, "root", (stripObj o0).title⟩ with hrootL
      set sB := s1.modifyNode 0 fun n =>
        { n with object := some ((stripObj o0).addLink rootL) } with hsB
      have hBself : sB.node 0
          = { s.node 0 with object := some ((stripObj o0).addLink rootL), nextHref := some v0 } := by
        rw [hsB, Stac.node_modify_self s1 0 _ (by rw [h1len]; exact h0r), h1self]
      have hBm : ∀ m, m ≠ 0 → sB.node m = s.node m := by
        intro m mh
        rw [hsB, Stac.node_modify_ne s1 0 m _ mh, h1m m mh]
      have hBpar : sB.parent 0 = none := by
        unfold Stac.parent
        rw [hBself]
        exact hpar
      rw [hBpar] at hs
      try dsimp only [] at hs
      rw [lbind_ok] at hs
      try dsimp only [] at hs
      have hBkids : sB.children 0 = (s.node 0).children := by
        unfold Stac.children
        rw [hBself]
      rw [hBkids] at hs
      obtain ⟨frameI, ⟨L, hLh, hLrel, hLmap⟩, hkidsI⟩ :=
        layoutChildren_inv strat r 0 ((s.node 0).children) sB s'
          ((stripObj o0).addLink rootL) v0 hnd hhc
          (by
            intro c hc
            rw [hBm c (fun e => hhc (e ▸ hc))]
            exact hobj c hc)
          (by rw [hBself])
          (by rw [hBself])
          hs
      refine ⟨v0, rootL, L, ?_, ?_, rfl, hLrel, ?_, ?_⟩
      · intro m mh mcs
        rw [frameI m mh mcs, hBm m mh]
      · rw [hLh, hBself]
      · rw [hLmap]
      · intro c hc
        obtain ⟨oc, g1, g2, g3⟩ := hkidsI c hc
        have : sB.node c = s.node c := hBm c (fun e => hhc (e ▸ hc))
        rw [this] at g1 g2
        exact ⟨oc, g1, g2, g3⟩

theorem roots_sublist_flatten : ∀ ts : List HTree,
    (ts.map HTree.h).Sublist (flattenF ts)
  | [] => by
    simp only [List.map_nil]
    unfold flattenF
    exact List.Sublist.slnil
  | .mk x us :: rest => by
    simp only [List.map_cons, flattenF, HTree.h]
    exact List.Sublist.cons₂ x
      ((roots_sublist_flatten rest).trans
        (List.sublist_append_right (flattenF us) (flattenF rest)))

theorem mem_flatten_of_root {ts : List HTree} {t : HTree} (ht : t ∈ ts) :
    t.h ∈ flattenF ts :=
  (roots_sublist_flatten ts).mem (List.mem_map_of_mem HTree.h ht)

theorem isRoot_of_rel {l : Link} (h : l.rel = "root") : l.isRoot = true := by
  unfold Link.isRoot
  rw [h]
  rfl

theorem isParent_of_rel {l : Link} (h : l.rel = "parent") : l.isParent = true := by
  unfold Link.isParent
  rw [h]
  rfl

theorem isChild_of_rel {l : Link} (h : l.rel = "child") : l.isChild = true := by
  unfold Link.isChild
  rw [h]
  rfl

theorem not_root_of_rel {l : Link} (r : String) (h : l.rel = r) (hr : r ≠ "root") :
    l.isRoot = false := by
  unfold Link.isRoot
  rw [h]
  simpa using hr

theorem not_parent_of_rel {l : Link} (r : String) (h : l.rel = r) (hr : r ≠ "parent") :
    l.isParent = false := by
  unfold Link.isParent
  rw [h]
  simpa using hr

theorem not_child_of_rel {l : Link} (r : String) (h : l.rel = r) (hr : r ≠ "child") :
    l.isChild = false := by
  unfold Link.isChild
  rw [h]
  simpa using hr

theorem walk_sim (strat : Strategy) (r : String) :
    ∀ (fuel : Nat) (F : List HTree) (s s' : Stac),
      WalkInv s F →
      layoutWalk strat r fuel s (F.map HTree.h) = some (.ok (), s') →
      WalkPost s s' F := by
  intro fuel
  induction fuel with
  | zero =>
    intro F s s' hInv hs
    cases F with
    | nil =>
      simp only [List.map_nil] at hs
      unfold layoutWalk at hs
      injection hs with hs
      injection hs with h1 h2
      subst h2
      exact ⟨fun m _ => rfl, fun t _ => rfl, by intro m hm; simp [flattenF] at hm⟩
    | cons t rest =>
      rcases t with ⟨h, ts⟩
      simp only [List.map_cons] at hs
      unfold layoutWalk at hs
      injection hs with hs
      injection hs with h1 _
      exact Except.noConfusion h1
  | succ fuel ih =>
    intro F s s' hInv hs
    cases F with
    | nil =>
      simp only [List.map_nil] at hs
      unfold layoutWalk at hs
      injection hs with hs
      injection hs with h1 h2
      subst h2
      exact ⟨fun m _ => rfl, fun t _ => rfl, by intro m hm; simp [flattenF] at hm⟩
    | cons t rest =>
      rcases t with ⟨h, ts⟩
      obtain ⟨hnd, h0nin, hres, h0obj, h0nh, hM, hPrep⟩ := hInv
      have hflat : flattenF (HTree.mk h ts :: rest) = h :: (flattenF ts ++ flattenF rest) := by
        simp only [flattenF]
      rw [hflat] at hnd h0nin hres
      unfold MatchesF at hM
      obtain ⟨hM1, hM2, hMts, hMrest⟩ := hM
      obtain ⟨hnhH, ⟨oh, hohH, hplain⟩, ⟨p, hparH, hpnin, hpobj, hpnh⟩⟩ :=
        hPrep ⟨h, ts⟩ (List.mem_cons_self _ _)
      simp only [HTree.h] at hnhH hohH hparH hM1
      rw [hflat] at hpnin
      have hH0 : h ≠ 0 := fun e => h0nin (by rw [← e]; exact List.mem_cons_self _ _)
      have hpH : p ≠ h := fun e => hpnin (e ▸ List.mem_cons_self _ _)
      rcases hvhE : (s.node h).nextHref with _ | vh
      · rw [hvhE] at hnhH
        exact absurd hnhH (by simp)
      rcases hopE : (s.node p).object with _ | op
      · rw [hopE] at hpobj
        exact absurd hpobj (by simp)
      rcases hvpE : (s.node p).nextHref with _ | vp
      · rw [hvpE] at hpnh
        exact absurd hpnh (by simp)
      rcases ho0E : (s.node 0).object with _ | o0
      · rw [ho0E] at h0obj
        exact absurd h0obj (by simp)
      rcases hv0E : (s.node 0).nextHref with _ | v0
      · rw [hv0E] at h0nh
        exact absurd h0nh (by simp)
      have hkid_flat : ∀ c ∈ (s.node h).children, c ∈ flattenF ts := by
        intro c hc
        rw [hM1] at hc
        exact (roots_sublist_flatten ts).mem hc
      have hndK : ((s.node h).children).Nodup := by
        rw [hM1]
        exact (roots_sublist_flatten ts).nodup
          ((List.nodup_cons.mp hnd).2.of_append_left)
      have hhK : h ∉ (s.node h).children := fun hc =>
        (List.nodup_cons.mp hnd).1 (List.mem_append_left _ (hkid_flat h hc))
      have hobjK : ∀ c ∈ (s.node h).children, ((s.node c).object).isSome := by
        intro c hc
        exact hres c (List.mem_cons_of_mem h (List.mem_append_left _ (hkid_flat c hc)))
      simp only [List.map_cons, HTree.h] at hs
      unfold layoutWalk at hs
      rcases hone : layoutOne strat r s h with _ | ⟨res, sV⟩
      · rw [hone, lbind_none] at hs
        exact Option.noConfusion hs
      rw [hone] at hs
      rcases res with e | u
      · rw [lbind_err] at hs
        injection hs with hs
        injection hs with h1 _
        exact Except.noConfusion h1
      rw [lbind_ok] at hs
      obtain ⟨rootL, parentL, L, frameV, hVh, hrrel, hprel, hLrel, hLmap, hkidsV⟩ :=
        layoutOne_nonroot_inv strat r s sV h p oh op o0 vh vp v0
          hH0 hpH hohH hvhE hparH hopE hvpE ho0E hv0E hndK hhK hobjK hone
      have hVkids : sV.children h = ts.map HTree.h := by
        unfold Stac.children
        rw [hVh]
        exact hM1
      rw [hVkids, ← List.map_append] at hs
      have hflatG : flattenF (ts ++ rest) = flattenF ts ++ flattenF rest :=
        flattenF_append ts rest
      have hVchildren : ∀ x, (sV.node x).children = (s.node x).children := by
        intro x
        by_cases hx : x = h
        · subst hx
          rw [hVh]
        · by_cases hxc : x ∈ (s.node h).children
          · obtain ⟨oc, g1, g2, g3⟩ := hkidsV x hxc
            rw [g2]
          · rw [frameV x hx hxc]
      have hVparent : ∀ x, (sV.node x).parent = (s.node x).parent := by
        intro x
        by_cases hx : x = h
        · subst hx
          rw [hVh]
        · by_cases hxc : x ∈ (s.node h).children
          · obtain ⟨oc, g1, g2, g3⟩ := hkidsV x hxc
            rw [g2]
          · rw [frameV x hx hxc]
      have hVobj : ∀ m, ((s.node m).object).isSome → ((sV.node m).object).isSome := by
        intro m hm
        by_cases hx : m = h
        · subst hx
          rw [hVh]
          rfl
        · by_cases hxc : m ∈ (s.node h).children
          · obtain ⟨oc, g1, g2, g3⟩ := hkidsV m hxc
            rw [g2]
            rfl
          · rw [frameV m hx hxc]
            exact hm
      have hVnh : ∀ m, m ≠ h → m ∉ (s.node h).children →
          (sV.node m).nextHref = (s.node m).nextHref := by
        intro m hx hm
        rw [frameV m hx hm]
      have hnotG : h ∉ flattenF (ts ++ rest) := by
        rw [hflatG]
        exact (List.nodup_cons.mp hnd).1
      have hdisj := (List.nodup_append.mp (List.nodup_cons.mp hnd).2).2.2
      have hInvG : WalkInv sV (ts ++ rest) := by
        refine ⟨?_, ?_, ?_, ?_, ?_, ?_, ?_⟩
        · rw [hflatG]
          exact (List.nodup_cons.mp hnd).2
        · rw [hflatG]
          intro hmem
          exact h0nin (List.mem_cons_of_mem h hmem)
        · rw [hflatG]
          intro m hm
          exact hVobj m (hres m (List.mem_cons_of_mem h hm))
        · exact hVobj 0 h0obj
        · have h0c : 0 ∉ (s.node h).children := fun hc =>
            h0nin (List.mem_cons_of_mem h (List.mem_append_left _ (hkid_flat 0 hc)))
          rw [hVnh 0 (fun e => hH0 e.symm) h0c, hv0E]
          rfl
        · exact MatchesF_ext s sV hVchildren hVparent _
            ((MatchesF_append s ts rest).mpr ⟨hMts, hMrest⟩)
        · intro t ht
          rcases List.mem_append.mp ht with htts | htrest
          · have htc : t.h ∈ (s.node h).children := by
              rw [hM1]
              exact List.mem_map_of_mem _ htts
            obtain ⟨oc, g1, g2, g3⟩ := hkidsV t.h htc
            refine ⟨g3, ⟨stripObj oc, by rw [g2], fun l hl => strip_plain oc.links l hl⟩,
              ⟨h, ?_, hnotG, ?_, ?_⟩⟩
            · rw [hVparent t.h]
              exact hM2 t htts
            · rw [hVh]
              rfl
            · rw [hVh]
              show ((s.node h).nextHref).isSome
              rw [hvhE]
              rfl
          · have htf : t.h ∈ flattenF rest := mem_flatten_of_root htrest
            have htne : t.h ≠ h := fun e =>
              (List.nodup_cons.mp hnd).1 (e ▸ List.mem_append_right _ htf)
            have htnc : t.h ∉ (s.node h).children := fun hc =>
              hdisj (hkid_flat t.h hc) htf
            obtain ⟨q1, ⟨ot, q2, q3⟩, ⟨pt, q4, q5, q6, q7⟩⟩ :=
              hPrep t (List.mem_cons_of_mem _ htrest)
            rw [hflat] at q5
            have hptne : pt ≠ h := fun e => q5 (e ▸ List.mem_cons_self _ _)
            have hptnc : pt ∉ (s.node h).children := fun hc =>
              q5 (List.mem_cons_of_mem h (List.mem_append_left _ (hkid_flat pt hc)))
            refine ⟨?_, ⟨ot, ?_, q3⟩, ⟨pt, ?_, ?_, ?_, ?_⟩⟩
            · rw [hVnh t.h htne htnc]
              exact q1
            · rw [frameV t.h htne htnc]
              exact q2
            · rw [hVparent t.h]
              exact q4
            · rw [hflatG]
              intro hmem
              exact q5 (List.mem_cons_of_mem h hmem)
            · rw [frameV pt hptne hptnc]
              exact q6
            · rw [hVnh pt hptne hptnc]
              exact q7
      obtain ⟨frameR, pinR, postR⟩ := ih (ts ++ rest) sV s' hInvG hs
      have hs'h : s'.node h = sV.node h := frameR h hnotG
      refine ⟨?_, ?_, ?_⟩
      · intro m hm
        rw [hflat] at hm
        have hm1 : m ≠ h := fun e => hm (e ▸ List.mem_cons_self _ _)
        have hm2 : m ∉ flattenF ts := fun e =>
          hm (List.mem_cons_of_mem _ (List.mem_append_left _ e))
        have hm3 : m ∉ flattenF rest := fun e =>
          hm (List.mem_cons_of_mem _ (List.mem_append_right _ e))
        have hmG : m ∉ flattenF (ts ++ rest) := by
          rw [hflatG]
          intro e
          rcases List.mem_append.mp e with e | e
          · exact hm2 e
          · exact hm3 e
        rw [frameR m hmG, frameV m hm1 (fun hc => hm2 (hkid_flat m hc))]
      · intro t ht
        rcases List.mem_cons.mp ht with e | htrest
        · subst e
          simp only [HTree.h]
          rw [hs'h, hVh]
        · have htf : t.h ∈ flattenF rest := mem_flatten_of_root htrest
          have htne : t.h ≠ h := fun e =>
            (List.nodup_cons.mp hnd).1 (e ▸ List.mem_append_right _ htf)
          have htnc : t.h ∉ (s.node h).children := fun hc =>
            hdisj (hkid_flat t.h hc) htf
          rw [pinR t (List.mem_append_right _ htrest), hVnh t.h htne htnc]
      · intro m hm
        rw [hflat] at hm
        rcases List.mem_cons.mp hm with e | hmem
        · rw [e]
          have hobjF : objAt s' h = ((oh.addLink rootL).addLink parentL).addLinks L := by
            unfold objAt
            rw [hs'h, hVh]
            rfl
          have hlinksF : (((oh.addLink rootL).addLink parentL).addLinks L).links
              = ((oh.links ++ [rootL]) ++ [parentL]) ++ L := rfl
          have hplainRoot : oh.links.filter (fun l => l.isRoot) = [] := by
            rw [List.filter_eq_nil]
            intro l hl
            simp [link_not_root_of_plain l (hplain l hl)]
          have hplainParent : oh.links.filter (fun l => l.isParent) = [] := by
            rw [List.filter_eq_nil]
            intro l hl
            simp [link_not_parent_of_plain l (hplain l hl)]
          have hplainChild : oh.links.filter (fun l => l.isChild) = [] := by
            rw [List.filter_eq_nil]
            intro l hl
            simp [link_not_child_of_plain l (hplain l hl)]
          have hLroot : L.filter (fun l => l.isRoot) = [] := by
            rw [List.filter_eq_nil]
            intro l hl
            simp [not_root_of_rel "child" (hLrel l hl) (by decide)]
          have hLparent : L.filter (fun l => l.isParent) = [] := by
            rw [List.filter_eq_nil]
            intro l hl
            simp [not_parent_of_rel "child" (hLrel l hl) (by decide)]
          have hLchild : L.filter (fun l => l.isChild) = L := by
            rw [List.filter_eq_self]
            intro l hl
            simp [isChild_of_rel (hLrel l hl)]
          refine ⟨?_, ?_, ?_⟩
          · unfold rootLinkCount
            rw [hobjF, hlinksF]
            simp [List.filter_append, hplainRoot, hLroot,
              isRoot_of_rel hrrel, not_root_of_rel "parent" hprel (by decide)]
          · unfold parentLinkCount
            rw [hobjF, hlinksF]
            simp [List.filter_append, hplainParent, hLparent,
              isParent_of_rel hprel, not_parent_of_rel "root" hrrel (by decide)]
          · unfold childLinksMatch childLinkHrefs
            rw [hobjF, hlinksF]
            have hfilter : (((oh.links ++ [rootL]) ++ [parentL]) ++ L).filter (fun l => l.isChild)
                = L := by
              simp [List.filter_append, hplainChild, hLchild,
                not_child_of_rel "root" hrrel (by decide),
                not_child_of_rel "parent" hprel (by decide)]
            rw [hfilter, hLmap]
            have hck : (Stac.children s' h) = (s.node h).children := by
              unfold Stac.children
              rw [hs'h, hVh]
            rw [hck]
            have hnhF : Stac.nextHref s' h = some vh := by
              unfold Stac.nextHref
              rw [hs'h, hVh]
              exact hvhE
            refine List.map_congr_left ?_
            intro c hc
            have hcts : ∃ t ∈ ts, t.h = c := by
              rw [hM1] at hc
              exact List.mem_map.mp hc
            obtain ⟨t, htts, rfl⟩ := hcts
            rw [hnhF]
            unfold Stac.nextHref
            rw [pinR t (List.mem_append_left _ htts)]
            rfl
        · exact postR m (by rw [hflatG]; exact hmem)

/-- **C1** (amended: restricted to trees all of whose reachable nodes are
already resolved, so that layout performs no on-demand resolution).  For every
store whose arena matches a duplicate-free tree rooted at the root handle,
with a parentless root and a document cached at every reachable node, if
`Layout::layout` completes successfully then every reachable node carries
exactly one root link, the root carries no parent link while every other
reachable node carries exactly one, and each reachable node's child links are
in one-to-one, order-preserving correspondence with its current children
(its pre-existing structural links having been stripped). -/
theorem claim_c1_layout_links (strat : Strategy) (rootRaw : String) (fuel : Nat)
    (s s' : Stac) (ts : List HTree)
    (hnd : (flattenF [HTree.mk 0 ts]).Nodup)
    (hM : MatchesF s [HTree.mk 0 ts])
    (hres : ∀ m ∈ flattenF [HTree.mk 0 ts], ((s.node m).object).isSome)
    (hpar : (s.node 0).parent = none)
    (hs : runLayout strat rootRaw fuel s = some (.ok (), s')) :
    (rootLinkCount (objAt s' 0) = 1 ∧ parentLinkCount (objAt s' 0) = 0 ∧
      childLinksMatch s' 0) ∧
    (∀ m ∈ flattenF ts,
      rootLinkCount (objAt s' m) = 1 ∧ parentLinkCount (objAt s' m) = 1 ∧
      childLinksMatch s' m) := by
  have hflat0 : flattenF [HTree.mk 0 ts] = 0 :: flattenF ts := by
    simp [flattenF]
  rw [hflat0] at hnd hres
  unfold MatchesF at hM
  obtain ⟨hM1, hM2, hMts, _⟩ := hM
  simp only [HTree.h] at hM1 hM2
  have h0nf : 0 ∉ flattenF ts := (List.nodup_cons.mp hnd).1
  have hndf : (flattenF ts).Nodup := (List.nodup_cons.mp hnd).2
  rcases ho0E : (s.node 0).object with _ | o0
  · have := hres 0 (List.mem_cons_self _ _)
    rw [ho0E] at this
    exact absurd this (by simp)
  have hkid_flat : ∀ c ∈ (s.node 0).children, c ∈ flattenF ts := by
    intro c hc
    rw [hM1] at hc
    exact (roots_sublist_flatten ts).mem hc
  have hndK : ((s.node 0).children).Nodup := by
    rw [hM1]
    exact (roots_sublist_flatten ts).nodup hndf
  have hhK : (0 : Handle) ∉ (s.node 0).children := fun hc => h0nf (hkid_flat 0 hc)
  have hobjK : ∀ c ∈ (s.node 0).children, ((s.node c).object).isSome := by
    intro c hc
    exact hres c (List.mem_cons_of_mem 0 (hkid_flat c hc))
  unfold runLayout at hs
  simp only [Stac.root, rootHandle] at hs
  cases fuel with
  | zero =>
    unfold layoutWalk at hs
    injection hs with hs
    injection hs with h1 _
    exact Except.noConfusion h1
  | succ fuel =>
    unfold layoutWalk at hs
    rcases hone : layoutOne strat (Href.ensureEndsInSlash rootRaw) s 0 with _ | ⟨res, sV⟩
    · rw [hone, lbind_none] at hs
      exact Option.noConfusion hs
    rw [hone] at hs
    rcases res with e | u
    · rw [lbind_err] at hs
      injection hs with hs
      injection hs with h1 _
      exact Except.noConfusion h1
    rw [lbind_ok] at hs
    obtain ⟨v0, rootL, L, frameV, hVh, hrrel, hLrel, hLmap, hkidsV⟩ :=
      layoutOne_root_inv strat (Href.ensureEndsInSlash rootRaw) s sV o0
        ho0E hpar hndK hhK hobjK hone
    have hVkids : sV.children 0 = ts.map HTree.h := by
      unfold Stac.children
      rw [hVh]
      exact hM1
    rw [List.append_nil, hVkids] at hs
    have hVchildren : ∀ x, (sV.node x).children = (s.node x).children := by
      intro x
      by_cases hx : x = 0
      · subst hx
        rw [hVh]
      · by_cases hxc : x ∈ (s.node 0).children
        · obtain ⟨oc, g1, g2, g3⟩ := hkidsV x hxc
          rw [g2]
        · rw [frameV x hx hxc]
    have hVparent : ∀ x, (sV.node x).parent = (s.node x).parent := by
      intro x
      by_cases hx : x = 0
      · subst hx
        rw [hVh]
      · by_cases hxc : x ∈ (s.node 0).children
        · obtain ⟨oc, g1, g2, g3⟩ := hkidsV x hxc
          rw [g2]
        · rw [frameV x hx hxc]
    have hInvG : WalkInv sV ts := by
      refine ⟨hndf, h0nf, ?_, ?_, ?_, ?_, ?_⟩
      · intro m hm
        by_cases hx : m = 0
        · exact absurd (hx ▸ hm) h0nf
        · by_cases hxc : m ∈ (s.node 0).children
          · obtain ⟨oc, g1, g2, g3⟩ := hkidsV m hxc
            rw [g2]
            rfl
          · rw [frameV m hx hxc]
            exact hres m (List.mem_cons_of_mem 0 hm)
      · rw [hVh]
        rfl
      · rw [hVh]
        rfl
      · exact MatchesF_ext s sV hVchildren hVparent _ hMts
      · intro t ht
        have htc : t.h ∈ (s.node 0).children := by
          rw [hM1]
          exact List.mem_map_of_mem _ ht
        obtain ⟨oc, g1, g2, g3⟩ := hkidsV t.h htc
        refine ⟨g3, ⟨stripObj oc, by rw [g2], fun l hl => strip_plain oc.links l hl⟩,
          ⟨0, ?_, h0nf, ?_, ?_⟩⟩
        · rw [hVparent t.h]
          exact hM2 t ht
        · rw [hVh]
          rfl
        · rw [hVh]
          rfl
    obtain ⟨frameR, pinR, postR⟩ := walk_sim strat (Href.ensureEndsInSlash rootRaw)
      fuel ts sV s' hInvG hs
    have hs'0 : s'.node 0 = sV.node 0 := frameR 0 h0nf
    have hobjF : objAt s' 0 = ((stripObj o0).addLink rootL).addLinks L := by
      unfold objAt
      rw [hs'0, hVh]
      rfl
    have hlinksF : (((stripObj o0).addLink rootL).addLinks L).links
        = ((stripObj o0).links ++ [rootL]) ++ L := rfl
    have hplain : ∀ l ∈ (stripObj o0).links, l.isStructural = false :=
      fun l hl => strip_plain o0.links l hl
    have hplainRoot : (stripObj o0).links.filter (fun l => l.isRoot) = [] := by
      rw [List.filter_eq_nil]
      intro l hl
      simp [link_not_root_of_plain l (hplain l hl)]
    have hplainParent : (stripObj o0).links.filter (fun l => l.isParent) = [] := by
      rw [List.filter_eq_nil]
      intro l hl
      simp [link_not_parent_of_plain l (hplain l hl)]
    have hplainChild : (stripObj o0).links.filter (fun l => l.isChild) = [] := by
      rw [List.filter_eq_nil]
      intro l hl
      simp [link_not_child_of_plain l (hplain l hl)]
    have hLroot : L.filter (fun l => l.isRoot) = [] := by
      rw [List.filter_eq_nil]
      intro l hl
      simp [not_root_of_rel "child" (hLrel l hl) (by decide)]
    have hLparent : L.filter (fun l => l.isParent) = [] := by
      rw [List.filter_eq_nil]
      intro l hl
      simp [not_parent_of_rel "child" (hLrel l hl) (by decide)]
    have hLchild : L.filter (fun l => l.isChild) = L := by
      rw [List.filter_eq_self]
      intro l hl
      simp [isChild_of_rel (hLrel l hl)]
    refine ⟨⟨?_, ?_, ?_⟩, postR⟩
    · unfold rootLinkCount
      rw [hobjF, hlinksF]
      simp [List.filter_append, hplainRoot, hLroot, isRoot_of_rel hrrel]
    · unfold parentLinkCount
      rw [hobjF, hlinksF]
      simp [List.filter_append, hplainParent, hLparent,
        not_parent_of_rel "root" hrrel (by decide)]
    · unfold childLinksMatch childLinkHrefs
      rw [hobjF, hlinksF]
      have hfilter : (((stripObj o0).links ++ [rootL]) ++ L).filter (fun l => l.isChild)
          = L := by
        simp [List.filter_append, hplainChild, hLchild,
          not_child_of_rel "root" hrrel (by decide)]
      rw [hfilter, hLmap]
      have hck : (Stac.children s' 0) = (s.node 0).children := by
        unfold Stac.children
        rw [hs'0, hVh]
      rw [hck]
      have hnhF : Stac.nextHref s' 0 = some v0 := by
        unfold Stac.nextHref
        rw [hs'0, hVh]
      refine List.map_congr_left ?_
      intro c hc
      have hcts : ∃ t ∈ ts, t.h = c := by
        rw [hM1] at hc
        exact List.mem_map.mp hc
      obtain ⟨t, htts, rfl⟩ := hcts
      rw [hnhF]
      unfold Stac.nextHref
      rw [pinR t htts]
      rfl

/-- Witness for the amended C1 on the spec §8 scenario: catalog, collection,
item, all resolved in memory. -/
theorem claim_c1_layout_links_witness :
    (rootLinkCount (objAt c2Final 0) = 1 ∧ parentLinkCount (objAt c2Final 0) = 0 ∧
      childLinksMatch c2Final 0) ∧
    (∀ m ∈ flattenF [HTree.mk 1 [HTree.mk 2 []]],
      rootLinkCount (objAt c2Final m) = 1 ∧ parentLinkCount (objAt c2Final m) = 1 ∧
      childLinksMatch c2Final m) :=
  claim_c1_layout_links .bestPractices "stac/root" 10 c2Step2.1 c2Final
    [HTree.mk 1 [HTree.mk 2 []]]
    (by simp only [flattenF]; decide)
    (by simp only [MatchesF]; decide)
    (by simp only [flattenF]; decide)
    (by decide)
    rfl
